import Mathlib

/-!
Verification of the dual-graph cascade engine of `py_brainmodels`
(`run_ltm.py` and `run_sir.py`).

Shallow embedding of `run_ltm.py` (`linear_threshold`, `_diffuse_all`,
`_diffuse_one_round`, `_influence_sum`) and of `run_sir.py` (`SIR_model`,
`_diffuse_all`, `_diffuse_one_round`).

Python floats are modelled as `PyFloat` (exact rationals plus the IEEE
specials that `np.divide` can produce on zero denominators); networkx
graphs as `PGraph` with explicit insertion-ordered node/adjacency lists;
raised exceptions as `Except Err`.  Module-level name lookups that the
source leaves unbound (`steps` in both entry points, `gamma` inside
`run_sir._diffuse_all`) are modelled by the environment as shipped
(unbound `steps`) or an `Option` parameter (`gamma`, which a caller could
in principle bind as a module global before calling).
-/

/-- Error kinds corresponding to the exceptions the two modules can raise.
The names follow the spec's §7 taxonomy where one exists; the last five
are the dynamic errors of the source (unbound names, bad unpack, missing
keys, empty-list index, float division by zero). -/
inductive Err where
  | invalidGraphType
  | dimensionMismatch
  | directedGraph
  | seedNotFound
  | thresholdOutOfRange
  | influenceOutOfRange
  | betaOutOfRange
  | nameErrorSteps
  | nameErrorGamma
  | nameErrorTau
  | valueErrorUnpack
  | keyError
  | indexError
  | zeroDivision
  deriving DecidableEq, Repr

/-- Python float values reachable in this code: finite values (kept exact
as rationals) and the IEEE specials that `np.divide` yields on a zero
denominator (`inf`, `-inf`, `nan`). -/
inductive PyFloat where
  | fin (q : ℚ)
  | inf
  | ninf
  | nan
  deriving DecidableEq, Repr

/-- Model of `np.divide a b` for finite operands: division when `b ≠ 0`, otherwise
the IEEE result (`inf`/`-inf`/`nan`) — numpy warns but does NOT raise on a
zero denominator. -/
def npDivide (a b : ℚ) : PyFloat :=
  if b = 0 then (if 0 < a then .inf else if a < 0 then .ninf else .nan)
  else .fin (a / b)

/-- Python `<` on floats; every comparison with `nan` is false. -/
def pyLt : PyFloat → PyFloat → Bool
  | .fin a, .fin b => decide (a < b)
  | .fin _, .inf => true
  | .ninf, .fin _ => true
  | .ninf, .inf => true
  | _, _ => false

/-- Python `<=` on floats; every comparison with `nan` is false. -/
def pyLe : PyFloat → PyFloat → Bool
  | .fin a, .fin b => decide (a ≤ b)
  | .fin _, .inf => true
  | .inf, .inf => true
  | .ninf, .fin _ => true
  | .ninf, .inf => true
  | .ninf, .ninf => true
  | _, _ => false

/-- Python `+` on floats. -/
def pyAdd : PyFloat → PyFloat → PyFloat
  | .fin a, .fin b => .fin (a + b)
  | .fin _, .inf => .inf
  | .inf, .fin _ => .inf
  | .inf, .inf => .inf
  | .fin _, .ninf => .ninf
  | .ninf, .fin _ => .ninf
  | .ninf, .ninf => .ninf
  | _, _ => .nan

/-- Python `l[-1]` as an option: the last element of a list. -/
def lastElem {α : Type} : List α → Option α
  | [] => none
  | [a] => some a
  | _ :: b :: rest => lastElem (b :: rest)

/-- A networkx graph as the two modules use it: node list and per-node
adjacency lists in insertion order, the per-edge `weight` attribute
(`none` when the edge or its `weight` key is missing, so that a lookup
raises), the edge list (`G.edges()` iteration order, each undirected edge
once), and the two flags the entry-point validation inspects. -/
structure PGraph where
  nodes : List Nat
  adj : Nat → List Nat
  w : Nat → Nat → Option ℚ
  edgeList : List (Nat × Nat)
  isMulti : Bool
  isDirected : Bool

/-- Weight table built from an edge/weight association list; used to build
concrete instances (`find?` models the dict lookup). -/
def wOf (entries : List (Nat × Nat × ℚ)) : Nat → Nat → Option ℚ :=
  fun u v => (entries.find? (fun e => e.1 = u ∧ e.2.1 = v)).map (fun e => e.2.2)

/-- All weights a graph actually stores are positive (the spec's §3 input
contract for both weight attributes). -/
def posW (G : PGraph) : Prop := ∀ u v q, G.w u v = some q → 0 < q

/-- An activation record `(source, target, time)` as appended to `i_edges`. -/
abbrev ActivationRec := Nat × Nat × PyFloat

/-- Ordered insertion in front of the first strictly greater key.  This is
NOT itself the model of the source's `sorted` call (that is `pySorted`
below); it is the form one `append` + `sorted` step provably takes when
the accumulated list is sorted and every key is pairwise comparable (no
`nan`) — see `pySorted_append_eq_insertTau`. -/
def insertTau (x : Nat × PyFloat) : List (Nat × PyFloat) → List (Nat × PyFloat)
  | [] => [x]
  | y :: ys => if pyLt x.2 y.2 then x :: y :: ys else y :: insertTau x ys

/-- Element of a pair list at an index (the default is never reached: all
callers stay in range). -/
def nthPair : List (Nat × PyFloat) → Nat → Nat × PyFloat
  | [], _ => (0, .nan)
  | a :: _, 0 => a
  | _ :: l, n + 1 => nthPair l n

/-- Insertion at a given position, as the memmove of CPython's
`binarysort` does it. -/
def pyInsertAt (x : Nat × PyFloat) : List (Nat × PyFloat) → Nat → List (Nat × PyFloat)
  | l, 0 => x :: l
  | [], _ + 1 => [x]
  | y :: ys, n + 1 => y :: pyInsertAt x ys n

/-- The binary search of CPython's `binarysort`: locate the insertion
position of `pivot` in `arr[l:r)` probing with `pivot < arr[p]` (`r := p`
on true, `l := p + 1` on false).  The fuel only bounds the halving loop
and never runs out when it starts above `r - l`. -/
def binPos (pivot : PyFloat) (arr : List (Nat × PyFloat)) : Nat → Nat → Nat → Nat
  | 0, l, _ => l
  | fuel + 1, l, r =>
    if l < r then
      if pyLt pivot (nthPair arr (l + (r - l) / 2)).2 then
        binPos pivot arr fuel l (l + (r - l) / 2)
      else binPos pivot arr fuel (l + (r - l) / 2 + 1) r
    else l

/-- CPython's `binarysort`: insert the elements after the initial run one
by one into the growing prefix, each at its binary-search position. -/
def binSortGo : List (Nat × PyFloat) → List (Nat × PyFloat) → List (Nat × PyFloat)
  | p, [] => p
  | p, x :: rest => binSortGo (pyInsertAt x p (binPos x.2 p (p.length + 1) 0 p.length)) rest

/-- The weakly ascending case of CPython's `count_run`: extend the run
while NOT `key[i] < key[i-1]`; returns the run (after the seed element)
and the remainder. -/
def runAsc (prev : Nat × PyFloat) :
    List (Nat × PyFloat) → List (Nat × PyFloat) × List (Nat × PyFloat)
  | [] => ([], [])
  | a :: rest =>
    if pyLt a.2 prev.2 then ([], a :: rest)
    else (a :: (runAsc a rest).1, (runAsc a rest).2)

/-- The strictly descending case of CPython's `count_run`: extend the run
while `key[i] < key[i-1]`. -/
def runDesc (prev : Nat × PyFloat) :
    List (Nat × PyFloat) → List (Nat × PyFloat) × List (Nat × PyFloat)
  | [] => ([], [])
  | a :: rest =>
    if pyLt a.2 prev.2 then (a :: (runDesc a rest).1, (runDesc a rest).2)
    else ([], a :: rest)

/-- CPython's `sorted(taus, key = lambda x: x[1])`, keys compared with
`pyLt` (every probe against a `nan` key answers false).  On fewer than 64
elements CPython's Timsort takes a single min-run: find the initial
weakly-ascending or strictly-descending run (reversing the latter) and
binary-insert the remaining elements — modelled here exactly.  On longer
inputs Timsort merges several runs, which coincides with this definition
whenever the keys are pairwise comparable (both are stable sorts); only a
`nan` key inside a list of 64 or more elements could be placed
differently.  In particular a list with `nan` keys is in general NOT
sorted by this function — run detection walks across incomparable
entries — e.g. keys `[1, nan, 1/2]` come back unchanged, as CPython
leaves them. -/
def pySorted : List (Nat × PyFloat) → List (Nat × PyFloat)
  | [] => []
  | [x] => [x]
  | x :: y :: rest =>
    if pyLt y.2 x.2 then
      binSortGo ((x :: y :: (runDesc y rest).1).reverse) (runDesc y rest).2
    else
      binSortGo (x :: y :: (runAsc y rest).1) (runAsc y rest).2

/-- The candidate-building loop of `_diffuse_one_round` (identical in
`run_ltm.py` lines 107-114 and `run_sir.py` lines 99-106): walk the
pivot's neighbours in adjacency order, skip members of `A`, look up the
distance and topology weights (a missing edge or missing `weight` key
raises and is swallowed by the bare `except: continue`), and re-sort the
appended list — the `taus.append(...)` and `taus = sorted(taus, ...)`
pair — with `pySorted`. -/
def buildTausGo (G L : PGraph) (A : List Nat) (last : Nat) :
    List Nat → List (Nat × PyFloat) → List (Nat × PyFloat)
  | [], taus => taus
  | nb :: nbs, taus =>
    if nb ∈ A then buildTausGo G L A last nbs taus
    else
      match L.w last nb, G.w last nb with
      | some lw, some gw =>
        buildTausGo G L A last nbs (pySorted (taus ++ [(nb, npDivide lw gw)]))
      | _, _ => buildTausGo G L A last nbs taus

/-- The candidate list `taus` of a round with pivot `last`. -/
def buildTaus (G L : PGraph) (A : List Nat) (last : Nat) : List (Nat × PyFloat) :=
  buildTausGo G L A last (G.adj last) []

/-- The candidate order as the SPEC words it (§4.2): ascending by tau with
ties broken by neighbour identifier ascending.  Stated only to be compared
against `buildTaus`; it is NOT a translation of the source. -/
def specInsertTau (x : Nat × PyFloat) : List (Nat × PyFloat) → List (Nat × PyFloat)
  | [] => [x]
  | y :: ys =>
    if pyLt x.2 y.2 ∨ (x.2 = y.2 ∧ x.1 < y.1) then x :: y :: ys else y :: specInsertTau x ys

/-- Spec-side candidate sequence (see `specInsertTau`). -/
def specCandidatesGo (G L : PGraph) (A : List Nat) (last : Nat) :
    List Nat → List (Nat × PyFloat) → List (Nat × PyFloat)
  | [], taus => taus
  | nb :: nbs, taus =>
    if nb ∈ A then specCandidatesGo G L A last nbs taus
    else
      match L.w last nb, G.w last nb with
      | some lw, some gw => specCandidatesGo G L A last nbs (specInsertTau (nb, npDivide lw gw) taus)
      | _, _ => specCandidatesGo G L A last nbs taus

/-- Spec-side candidate sequence for a round (see `specInsertTau`). -/
def specCandidates (G L : PGraph) (A : List Nat) (last : Nat) : List (Nat × PyFloat) :=
  specCandidatesGo G L A last (G.adj last) []

/-- Model of `list(set(G.neighbors(targ)).intersection(set(A)))`.  CPython's set
iteration order is unspecified; we keep the adjacency order.  No theorem
below depends on the order of this list, only on its members and length. -/
def activeNbrs (G : PGraph) (A : List Nat) (targ : Nat) : List Nat :=
  (G.adj targ).filter (fun x => decide (x ∈ A))

/-- The eligibility scan of `run_sir.py` lines 110-116: each active
neighbour's own tau is recomputed inside a `try`, so a missing weight
skips that neighbour; it is kept when its tau is `<=` the candidate tau. -/
def taGoSIR (G L : PGraph) (targ : Nat) (tau : PyFloat) : List Nat → List Nat
  | [] => []
  | a :: rest =>
    match L.w a targ, G.w a targ with
    | some lw, some gw =>
      if pyLe (npDivide lw gw) tau then a :: taGoSIR G L targ tau rest
      else taGoSIR G L targ tau rest
    | _, _ => taGoSIR G L targ tau rest

/-- The eligibility scan of `run_ltm.py` lines 118-121: same computation
but with NO `try`, so a missing edge or weight key raises an uncaught
`KeyError`. -/
def taGoLTM (G L : PGraph) (targ : Nat) (tau : PyFloat) : List Nat → Except Err (List Nat)
  | [] => .ok []
  | a :: rest =>
    match L.w a targ, G.w a targ with
    | some lw, some gw =>
      (taGoLTM G L targ tau rest).map
        (fun l => if pyLe (npDivide lw gw) tau then a :: l else l)
    | _, _ => .error .keyError

/-- Model of `run_ltm._influence_sum`: sum of the `influence` attribute over the
edges from `froms` into `to`.  After the entry-point init every edge
carries the attribute, modelled by the total function `infl`. -/
def influence_sum (infl : Nat → Nat → ℚ) (froms : List Nat) (dst : Nat) : ℚ :=
  froms.foldl (fun s f => s + infl f dst) 0

/-- One candidate evaluation of the LTM loop body (`run_ltm.py` lines
115-122): compute the eligible active neighbours, then test
`influence_sum >= threshold`.  `some` = the candidate activates. -/
def ltmCand (G L : PGraph) (thr : Nat → ℚ) (infl : Nat → Nat → ℚ) (A : List Nat)
    (c : Nat × PyFloat) : Except Err (Option (Nat × List Nat × PyFloat)) :=
  match taGoLTM G L c.1 c.2 (activeNbrs G A c.1) with
  | .error e => .error e
  | .ok ta =>
    if thr c.1 ≤ influence_sum infl ta c.1 then .ok (some (c.1, ta, c.2)) else .ok none

/-- The LTM candidate loop (`run_ltm.py` lines 115-130): evaluate the
sorted candidates in order and RETURN at the first one that activates. -/
def ltmEvalLoop (G L : PGraph) (thr : Nat → ℚ) (infl : Nat → Nat → ℚ) (A : List Nat) :
    List (Nat × PyFloat) → Except Err (Option (Nat × List Nat × PyFloat))
  | [] => .ok none
  | c :: rest =>
    match ltmCand G L thr infl A c with
    | .error e => .error e
    | .ok (some r) => .ok (some r)
    | .ok none => ltmEvalLoop G L thr infl A rest

/-- Return value of `run_ltm._diffuse_one_round`: the `(A, i_edges, tau)`
triple, the `(None, None, None)` stall triple, or a raised exception. -/
inductive LtmRet where
  | tri (A : List Nat) (i_edges : List ActivationRec) (tau : PyFloat)
  | triNone
  | err (e : Err)
  deriving DecidableEq, Repr

/-- Model of `run_ltm._diffuse_one_round` (lines 100-133).  `A[-1]` on an empty
frontier raises an uncaught `IndexError` (no `try` in this variant).  On
the first activating candidate the target is appended to `A` (the
per-round set holds exactly that target here) and one record per eligible
active neighbour is emitted at `time + tau`.  When no candidate activates
`A` was never touched, so the `len(A) == len_old` test always takes the
stall branch. -/
def ltm_diffuse_one_round (G L : PGraph) (thr : Nat → ℚ) (infl : Nat → Nat → ℚ)
    (A : List Nat) (time : PyFloat) : LtmRet :=
  match lastElem A with
  | none => .err .indexError
  | some last =>
    match ltmEvalLoop G L thr infl A (buildTaus G L A last) with
    | .error e => .err e
    | .ok (some (targ, ta, tau)) =>
      .tri (A ++ [targ]) (ta.map (fun a => (a, targ, pyAdd time tau))) tau
    | .ok none => .triNone

/-- Model of `run_ltm._diffuse_all` (lines 90-98), with a fuel bound on the number
of rounds; `.ok none` means the fuel ran out before the loop did. -/
def ltm_diffuse_all (G L : PGraph) (thr : Nat → ℚ) (infl : Nat → Nat → ℚ) :
    Nat → List Nat → List ActivationRec → PyFloat → Except Err (Option (List ActivationRec))
  | 0, _, _, _ => .ok none
  | fuel + 1, A, i_nodes, time =>
    match ltm_diffuse_one_round G L thr infl A time with
    | .err e => .error e
    | .triNone => .ok (some i_nodes)
    | .tri A2 i_edges tau =>
      ltm_diffuse_all G L thr infl fuel A2 (i_nodes ++ i_edges) (pyAdd time tau)

/-- Python `if x in l then l else l.add-at-end`: the effect of
`activated_nodes_of_this_round.add(targ)` on the round's set, modelled as
an insertion-ordered duplicate-free list. -/
def addSet (x : Nat) (l : List Nat) : List Nat := if x ∈ l then l else l ++ [x]

/-- Mutable state of the SIR candidate loop: the frontier list `A`, the
round's `activated_nodes_of_this_round` set, and the `i_edges` records. -/
structure SirSt where
  A : List Nat
  acts : List Nat
  i_edges : List ActivationRec
  deriving DecidableEq, Repr

/-- One iteration of the SIR candidate loop body (`run_sir.py` lines
107-123): recompute the eligible active neighbours against the CURRENT
`A`, test `eventp < beta(targ) * len(true_actives)`; on success add the
target to the round set, extend `A` with the WHOLE round set (the source
has no early return here, unlike the LTM variant), and emit the records.
-/
def sirCandStep (G L : PGraph) (beta : Nat → ℚ) (eventp : ℚ) (time : PyFloat)
    (st : SirSt) (c : Nat × PyFloat) : SirSt :=
  let ta := taGoSIR G L c.1 c.2 (activeNbrs G st.A c.1)
  if eventp < beta c.1 * (ta.length : ℚ) then
    let acts := addSet c.1 st.acts
    { A := st.A ++ acts, acts := acts,
      i_edges := st.i_edges ++ ta.map (fun a => (a, c.1, pyAdd time c.2)) }
  else st

/-- The recovery sweep `for nd in A: if eventp < gamma: r_.append(nd);
A.remove(nd)` (`run_sir.py` lines 125-128), reproduced with CPython's
list-iterator semantics: the iterator index always advances while
`remove` deletes the FIRST occurrence of the value, so deletions shift
the next element under the cursor and it is skipped.  `remove` is the
branch condition `eventp < gamma`, which does not depend on the element.
The fuel starts above the list length and cannot run out. -/
def nthD : List Nat → Nat → Nat
  | [], _ => 0
  | a :: _, 0 => a
  | _ :: l, n + 1 => nthD l n

/-- Python `list.remove(x)`: drop the first occurrence of the value.  (On
a value that is absent Python would raise; the sweep only ever removes
`A[i]`, which is present, so that path cannot occur there.) -/
def pyRemove : List Nat → Nat → List Nat
  | [], _ => []
  | a :: l, x => if a = x then l else a :: pyRemove l x

def sweepGo (remove : Bool) : Nat → List Nat → Nat → List Nat → List Nat × List Nat
  | 0, A, _, racc => (A, racc)
  | fuel + 1, A, i, racc =>
    if i < A.length then
      if remove then sweepGo remove fuel (pyRemove A (nthD A i)) (i + 1) (racc ++ [nthD A i])
      else sweepGo remove fuel A (i + 1) racc
    else (A, racc)

/-- The recovery sweep over the whole frontier (see `sweepGo`). -/
def pySweep (remove : Bool) (A : List Nat) : List Nat × List Nat :=
  sweepGo remove (A.length + 1) A 0 []

/-- Return value of `run_sir._diffuse_one_round`: the 4-tuple, the
4-`None` tuple (empty frontier), the 3-`None` STALL tuple of line 131, or
a raised exception. -/
inductive SirRet where
  | quad (A : List Nat) (i_edges : List ActivationRec) (r2 : List Nat) (tau : PyFloat)
  | quadNone
  | triNone
  | err (e : Err)
  deriving DecidableEq, Repr

/-- The whole candidate loop of a SIR round: fold `sirCandStep` over the
sorted candidates, starting from the frontier at round entry (the
source's `taus` loop with state `A`/`activated_nodes_of_this_round`/
`i_edges`). -/
def sirFoldCands (G L : PGraph) (beta : Nat → ℚ) (eventp : ℚ) (time : PyFloat)
    (A : List Nat) (taus : List (Nat × PyFloat)) : SirSt :=
  taus.foldl (sirCandStep G L beta eventp time) (SirSt.mk A [] [])

/-- Model of `run_sir._diffuse_one_round` (lines 87-133).  `A[-1]` is guarded by a
`try`, so an empty frontier returns four `None`s.  One random sample
`eventp` is drawn per round and shared by every candidate test and by the
recovery sweep.  The stall test compares the SWEPT frontier length with
the length at entry and returns the 3-tuple of line 131; otherwise the
returned `tau` is the loop variable left over from the candidate loop —
the tau of the LAST candidate (a `NameError` when there was none).  The
parameter `r` is accepted and never read, exactly as in the source. -/
def sir_diffuse_one_round (G L : PGraph) (beta : Nat → ℚ) (gamma : ℚ)
    (A r : List Nat) (time : PyFloat) (eventp : ℚ) : SirRet :=
  match lastElem A with
  | none => .quadNone
  | some last =>
    if (pySweep (decide (eventp < gamma))
          (sirFoldCands G L beta eventp time A (buildTaus G L A last)).A).1.length =
        A.length then .triNone
    else
      match lastElem (buildTaus G L A last) with
      | none => .err .nameErrorTau
      | some c =>
        .quad (pySweep (decide (eventp < gamma))
                (sirFoldCands G L beta eventp time A (buildTaus G L A last)).A).1
          (sirFoldCands G L beta eventp time A (buildTaus G L A last)).i_edges
          (pySweep (decide (eventp < gamma))
            (sirFoldCands G L beta eventp time A (buildTaus G L A last)).A).2
          c.2

/-- Model of `run_sir._diffuse_all` (lines 75-85), fuelled.  `gammaG` is the
module-global binding of the free name `gamma` used at the call on line
80: the module as shipped leaves it unbound (`none`), which raises a
`NameError` before the first round.  `rand k` is the `np.random`
sample of round `k`.  Unpacking the stall 3-tuple into four variables
raises a `ValueError`; the 4-`None` return passes the `A == None` test
and the accumulated records and deduplicated removed list are returned.
-/
def sir_diffuse_all (gammaG : Option ℚ) (G L : PGraph) (beta : Nat → ℚ) (rand : Nat → ℚ) :
    Nat → Nat → List Nat → List Nat → List ActivationRec → PyFloat →
    Except Err (Option (List ActivationRec × List Nat))
  | _, 0, _, _, _, _ => .ok none
  | k, fuel + 1, A, r, i_nodes, time =>
    match gammaG with
    | none => .error .nameErrorGamma
    | some gamma =>
      match sir_diffuse_one_round G L beta gamma A r time (rand k) with
      | .quadNone => .ok (some (i_nodes, r.dedup))
      | .triNone => .error .valueErrorUnpack
      | .err e => .error e
      | .quad A2 i_edges r2 tau =>
        sir_diffuse_all gammaG G L beta rand (k + 1) fuel A2 (r ++ r2)
          (i_nodes ++ i_edges) (pyAdd time tau)

/-- The seed-membership loop shared by both entry points. -/
def seedsOK (G : PGraph) (seeds : List Nat) : Bool := seeds.all (fun s => s ∈ G.nodes)

/-- The threshold init loop of `run_ltm.py` lines 70-74: every node gets
the same configured value, and the first node already trips the `> 1`
check, so the loop raises iff the node list is nonempty and the value
exceeds 1. -/
def initThresholds (G : PGraph) (threshold : ℚ) : Except Err Unit :=
  if ¬G.nodes.isEmpty ∧ 1 < threshold then .error .thresholdOutOfRange else .ok ()

/-- The influence init loop of `run_ltm.py` lines 77-82 over `G.edges()`:
`1.0 / deg[e[1]]` raises a `ZeroDivisionError` on a degree-0 endpoint,
and otherwise the `> 1` check runs (it can never fire, see
`claim_C8_amended`). -/
def initInfluencesGo (G : PGraph) : List (Nat × Nat) → Except Err Unit
  | [] => .ok ()
  | e :: es =>
    if (G.adj e.2).length = 0 then .error .zeroDivision
    else if 1 < (1 : ℚ) / ((G.adj e.2).length : ℚ) then .error .influenceOutOfRange
    else initInfluencesGo G es

/-- The influence init over the whole edge list (see `initInfluencesGo`). -/
def initInfluences (G : PGraph) : Except Err Unit := initInfluencesGo G G.edgeList

/-- Model of `run_ltm.linear_threshold` (lines 53-88): the construction prologue in
source order, then `A = deepcopy(seeds)` and the test `if steps <= 0` on
the unbound module name `steps`, which raises a `NameError`; the
diffusion below it is unreachable through this entry point. -/
def linear_threshold (G L : PGraph) (seeds : List Nat) (threshold : ℚ) :
    Except Err (List ActivationRec) :=
  if G.isMulti then .error .invalidGraphType
  else if ¬G.nodes.length = L.nodes.length then .error .dimensionMismatch
  else if G.isDirected ∨ L.isDirected then .error .directedGraph
  else if ¬seedsOK G seeds then .error .seedNotFound
  else
    match initThresholds G threshold with
    | .error e => .error e
    | .ok _ =>
      match initInfluences G with
      | .error e => .error e
      | .ok _ => .error .nameErrorSteps

/-- Model of `run_sir.SIR_model` (lines 52-67): multi-edge, dimension and seed
checks (there is NO undirectedness check in this variant), then
`A = deepcopy(seeds)` and `if steps <= 0` on the unbound name `steps` —
a `NameError`.  The beta init/validation of lines 69-73 sits after the
function's only `return` and is unreachable dead code, so it does not
appear here. -/
def SIR_model (G L : PGraph) (seeds : List Nat) (beta gamma : ℚ) :
    Except Err (List ActivationRec × List Nat) :=
  if G.isMulti then .error .invalidGraphType
  else if ¬G.nodes.length = L.nodes.length then .error .dimensionMismatch
  else if ¬seedsOK G seeds then .error .seedNotFound
  else .error .nameErrorSteps

/-- Fan graph: node 1 adjacent to 2 and 3, unit topology weights. -/
def Gfan : PGraph :=
  { nodes := [1, 2, 3],
    adj := fun n => if n = 1 then [2, 3] else if n = 2 then [1] else if n = 3 then [1] else [],
    w := wOf [(1, 2, 1), (2, 1, 1), (1, 3, 1), (3, 1, 1)],
    edgeList := [(1, 2), (1, 3)], isMulti := false, isDirected := false }

/-- Distance graph for `Gfan`: edge (1,2) has length 1, edge (1,3) length 2. -/
def Lfan : PGraph :=
  { nodes := [1, 2, 3],
    adj := fun n => if n = 1 then [2, 3] else if n = 2 then [1] else if n = 3 then [1] else [],
    w := wOf [(1, 2, 1), (2, 1, 1), (1, 3, 2), (3, 1, 2)],
    edgeList := [(1, 2), (1, 3)], isMulti := false, isDirected := false }

/-- Tie graph: node 1 with adjacency list [3, 2] (insertion order 3 first). -/
def Gtie : PGraph :=
  { nodes := [1, 2, 3],
    adj := fun n => if n = 1 then [3, 2] else [1],
    w := wOf [(1, 3, 1), (3, 1, 1), (1, 2, 1), (2, 1, 1)],
    edgeList := [(1, 3), (1, 2)], isMulti := false, isDirected := false }

/-- Distance graph for `Gtie`: both edges have length 2, so both taus tie at 2. -/
def Ltie : PGraph :=
  { nodes := [1, 2, 3],
    adj := fun n => if n = 1 then [3, 2] else [1],
    w := wOf [(1, 3, 2), (3, 1, 2), (1, 2, 2), (2, 1, 2)],
    edgeList := [(1, 3), (1, 2)], isMulti := false, isDirected := false }

/-- Edge (1,2) with topology weight 5. -/
def Gzw : PGraph :=
  { nodes := [1, 2], adj := fun n => if n = 1 then [2] else [1],
    w := wOf [(1, 2, 5), (2, 1, 5)], edgeList := [(1, 2)],
    isMulti := false, isDirected := false }

/-- Distance graph for `Gzw` with a ZERO distance weight on edge (1,2). -/
def Lzw : PGraph :=
  { nodes := [1, 2], adj := fun n => if n = 1 then [2] else [1],
    w := wOf [(1, 2, 0), (2, 1, 0)], edgeList := [(1, 2)],
    isMulti := false, isDirected := false }

/-- Topology graph with edges (1,2) and (2,5); node 5 is active. -/
def Gmiss : PGraph :=
  { nodes := [1, 2, 5],
    adj := fun n => if n = 1 then [2] else if n = 2 then [1, 5] else [2],
    w := wOf [(1, 2, 1), (2, 1, 1), (5, 2, 1), (2, 5, 1)],
    edgeList := [(1, 2), (2, 5)], isMulti := false, isDirected := false }

/-- Distance graph for `Gmiss`: the weight of edge (2,5) is MISSING, so the
eligibility scan for target 2 hits a failing lookup at active node 5. -/
def Lmiss : PGraph :=
  { nodes := [1, 2, 5],
    adj := fun n => if n = 1 then [2] else if n = 2 then [1, 5] else [2],
    w := wOf [(1, 2, 1), (2, 1, 1)],
    edgeList := [(1, 2)], isMulti := false, isDirected := false }

/-- Two-node chain 1 - 2 with unit weights (also used as its own distance
graph); node 9 is an extra frontier member without edges. -/
def Gchain : PGraph :=
  { nodes := [9, 1, 2],
    adj := fun n => if n = 1 then [2] else if n = 2 then [1] else [],
    w := wOf [(1, 2, 1), (2, 1, 1)], edgeList := [(1, 2)],
    isMulti := false, isDirected := false }

/-- Fan with unit topology weights, used with `Lfar`. -/
def Gfar : PGraph :=
  { nodes := [1, 2, 3],
    adj := fun n => if n = 1 then [2, 3] else [1],
    w := wOf [(1, 2, 1), (2, 1, 1), (1, 3, 1), (3, 1, 1)],
    edgeList := [(1, 2), (1, 3)], isMulti := false, isDirected := false }

/-- Distance graph for `Gfar`: candidate 2 at tau 1, candidate 3 at tau 5. -/
def Lfar : PGraph :=
  { nodes := [1, 2, 3],
    adj := fun n => if n = 1 then [2, 3] else [1],
    w := wOf [(1, 2, 1), (2, 1, 1), (1, 3, 5), (3, 1, 5)],
    edgeList := [(1, 2), (1, 3)], isMulti := false, isDirected := false }

/-- Fan over nodes 4, 5, 6 (pivot 4), distance weights 1 and 3. -/
def Gdup : PGraph :=
  { nodes := [4, 5, 6],
    adj := fun n => if n = 4 then [5, 6] else [4],
    w := wOf [(4, 5, 1), (5, 4, 1), (4, 6, 1), (6, 4, 1)],
    edgeList := [(4, 5), (4, 6)], isMulti := false, isDirected := false }

/-- Distance graph for `Gdup`. -/
def Ldup : PGraph :=
  { nodes := [4, 5, 6],
    adj := fun n => if n = 4 then [5, 6] else [4],
    w := wOf [(4, 5, 1), (5, 4, 1), (4, 6, 3), (6, 4, 3)],
    edgeList := [(4, 5), (4, 6)], isMulti := false, isDirected := false }

/-- Edge (1,2) with ZERO topology weight. -/
def Gzd : PGraph :=
  { nodes := [1, 2], adj := fun n => if n = 1 then [2] else [1],
    w := wOf [(1, 2, 0), (2, 1, 0)], edgeList := [(1, 2)],
    isMulti := false, isDirected := false }

/-- Distance graph for `Gzd` with distance weight 3 on edge (1,2). -/
def Lzd : PGraph :=
  { nodes := [1, 2], adj := fun n => if n = 1 then [2] else [1],
    w := wOf [(1, 2, 3), (2, 1, 3)], edgeList := [(1, 2)],
    isMulti := false, isDirected := false }

/-- Single isolated node, used to produce a stalled round. -/
def Gisol : PGraph :=
  { nodes := [1], adj := fun _ => [], w := fun _ _ => none,
    edgeList := [], isMulti := false, isDirected := false }

/-- Directed variant of `Gfan`. -/
def Gdir : PGraph :=
  { Gfan with isDirected := true }

/-- Sortedness of a tau list in the sense the incremental Python sort
guarantees: no later entry has a strictly smaller key than an earlier one
(`<` never holds backwards; with `nan`-free keys this is the usual
ascending order). -/
def tauSorted (l : List (Nat × PyFloat)) : Prop :=
  l.Pairwise (fun a b => pyLt b.2 a.2 = false)

theorem pyLt_asymm {a b : PyFloat} (h : pyLt a b = true) : pyLt b a = false := by
  cases a <;> cases b <;> simp_all [pyLt] <;> linarith

theorem pyLt_trans {a b c : PyFloat} (h1 : pyLt a b = true) (h2 : pyLt b c = true) :
    pyLt a c = true := by
  cases a <;> cases b <;> cases c <;> simp_all [pyLt] <;> linarith

theorem mem_insertTau (x a : Nat × PyFloat) (l : List (Nat × PyFloat)) :
    a ∈ insertTau x l ↔ a = x ∨ a ∈ l := by
  induction l with
  | nil => simp [insertTau]
  | cons y ys ih =>
    simp only [insertTau]
    split
    · simp [List.mem_cons]
    · simp only [List.mem_cons, ih]
      tauto

theorem insertTau_sorted (x : Nat × PyFloat) {l : List (Nat × PyFloat)} (h : tauSorted l) :
    tauSorted (insertTau x l) := by
  induction l with
  | nil => simp [insertTau, tauSorted]
  | cons y ys ih =>
    rcases List.pairwise_cons.1 h with ⟨hy, hys⟩
    simp only [insertTau]
    split
    case isTrue hlt =>
      refine List.pairwise_cons.2 ⟨?_, h⟩
      intro z hz
      rcases List.mem_cons.1 hz with rfl | hz2
      · exact pyLt_asymm hlt
      · by_contra hzx
        have hzx2 : pyLt z.2 x.2 = true := by
          cases hb : pyLt z.2 x.2
          · exact absurd hb hzx
          · rfl
        have := pyLt_trans hzx2 hlt
        rw [hy z hz2] at this
        exact Bool.noConfusion this
    case isFalse hnlt =>
      refine List.pairwise_cons.2 ⟨?_, ih hys⟩
      intro z hz
      rcases (mem_insertTau x z ys).1 hz with rfl | hz2
      · exact Bool.not_eq_true _ ▸ (by simpa using hnlt)
      · exact hy z hz2

theorem pyLt_irrefl (a : PyFloat) : pyLt a a = false := by
  cases a <;> simp [pyLt]

theorem pyLt_lt_of_not_lt {a b c : PyFloat} (h1 : pyLt a b = true)
    (h2 : pyLt c b = false) (h3 : ¬c = PyFloat.nan) : pyLt a c = true := by
  cases a <;> cases b <;> cases c <;> simp_all [pyLt] <;> linarith

theorem not_pyLt_trans {a b c : PyFloat} (h1 : pyLt a b = false) (h2 : pyLt b c = false)
    (ha : ¬a = PyFloat.nan) (hb : ¬b = PyFloat.nan) (hc : ¬c = PyFloat.nan) :
    pyLt a c = false := by
  cases a <;> cases b <;> cases c <;> simp_all [pyLt] <;> linarith

theorem nthPair_mem : ∀ (l : List (Nat × PyFloat)) (j : Nat), j < l.length → nthPair l j ∈ l := by
  intro l
  induction l with
  | nil => intro j hj; simp at hj
  | cons a t ih =>
    intro j hj
    cases j with
    | zero => exact List.mem_cons_self a t
    | succ k => exact List.mem_cons_of_mem a (ih k (by simpa using hj))

theorem tauSorted_nth {l : List (Nat × PyFloat)} (h : tauSorted l) :
    ∀ i j, i < j → j < l.length → pyLt (nthPair l j).2 (nthPair l i).2 = false := by
  induction l with
  | nil => intro i j _ hj; simp at hj
  | cons a t ih =>
    rcases List.pairwise_cons.1 h with ⟨ha, ht⟩
    intro i j hij hj
    cases i with
    | zero =>
      cases j with
      | zero => omega
      | succ k =>
        exact ha (nthPair t k) (nthPair_mem t k (by simpa using hj))
    | succ i2 =>
      cases j with
      | zero => omega
      | succ k => exact ih ht i2 k (by omega) (by simpa using hj)

theorem lastElem_mem {α : Type} {z : α} : ∀ {l : List α}, lastElem l = some z → z ∈ l := by
  intro l
  induction l with
  | nil => intro h; simp [lastElem] at h
  | cons a t ih =>
    intro h
    cases t with
    | nil =>
      have ha : a = z := by simpa [lastElem] using h
      simp [ha]
    | cons b t2 => exact List.mem_cons_of_mem a (ih h)

theorem lastElem_cons_some {α : Type} : ∀ (t : List α) (a : α), ∃ z, lastElem (a :: t) = some z := by
  intro t
  induction t with
  | nil => intro a; exact ⟨a, rfl⟩
  | cons b t2 ih => intro a; exact ih b

theorem sorted_last_not_lt {z : Nat × PyFloat} :
    ∀ {acc : List (Nat × PyFloat)}, tauSorted acc → lastElem acc = some z →
      ∀ y ∈ acc, pyLt z.2 y.2 = false := by
  intro acc
  induction acc with
  | nil => intro _ h; simp [lastElem] at h
  | cons a t ih =>
    intro hsort hlast y hy
    cases t with
    | nil =>
      have ha : a = z := by simpa [lastElem] using hlast
      have hya : y = a := by simpa using hy
      rw [hya, ← ha]
      exact pyLt_irrefl a.2
    | cons b t2 =>
      have hlast2 : lastElem (b :: t2) = some z := hlast
      rcases List.mem_cons.1 hy with rfl | hy2
      · rcases List.pairwise_cons.1 hsort with ⟨ha, _⟩
        exact ha z (lastElem_mem hlast2)
      · exact ih (List.pairwise_cons.1 hsort).2 hlast2 y hy2

theorem sublist_insertTau {s : List (Nat × PyFloat)} (x : Nat × PyFloat) :
    ∀ {l : List (Nat × PyFloat)}, List.Sublist s l → List.Sublist s (insertTau x l) := by
  intro l
  induction l generalizing s with
  | nil =>
    intro h
    rw [List.sublist_nil.1 h]
    exact List.nil_sublist _
  | cons y ys ih =>
    intro h
    simp only [insertTau]
    split
    · exact h.trans (List.sublist_cons_self x (y :: ys))
    · cases h with
      | cons _ h2 => exact List.Sublist.cons y (ih h2)
      | cons₂ _ h2 => exact List.Sublist.cons₂ y (ih h2)

theorem insertTau_pair_after {nb1 : Nat} {t : PyFloat} (x : Nat × PyFloat) :
    ∀ {acc : List (Nat × PyFloat)}, (nb1, t) ∈ acc → tauSorted acc → x.2 = t →
      List.Sublist [(nb1, t), x] (insertTau x acc) := by
  intro acc
  induction acc with
  | nil => intro hmem; simp at hmem
  | cons y ys ih =>
    intro hmem hsort heq
    rcases List.pairwise_cons.1 hsort with ⟨hy, hys⟩
    simp only [insertTau]
    split
    case isTrue hlt =>
      exfalso
      rcases List.mem_cons.1 hmem with heq2 | hmem2
      · rw [heq, ← heq2] at hlt
        have hitalic : pyLt t t = true := hlt
        rw [pyLt_irrefl] at hitalic
        exact Bool.noConfusion hitalic
      · have h1 : pyLt t y.2 = false := hy _ hmem2
        rw [heq] at hlt
        rw [h1] at hlt
        exact Bool.noConfusion hlt
    case isFalse hnlt =>
      rcases List.mem_cons.1 hmem with heq2 | hmem2
      · rw [← heq2]
        refine List.Sublist.cons₂ _ ?_
        rw [List.singleton_sublist]
        exact (mem_insertTau x x ys).2 (Or.inl rfl)
      · exact List.Sublist.cons y (ih hmem2 hys heq)

theorem insertTau_append {x : Nat × PyFloat} :
    ∀ {acc : List (Nat × PyFloat)}, (∀ y ∈ acc, pyLt x.2 y.2 = false) →
      insertTau x acc = acc ++ [x] := by
  intro acc
  induction acc with
  | nil => intro _; rfl
  | cons y ys ih =>
    intro h
    simp only [insertTau]
    rw [if_neg (by simp [h y (List.mem_cons_self y ys)])]
    rw [ih (fun z hz => h z (List.mem_cons_of_mem y hz))]
    rfl

theorem pyInsertAt_eq (x : Nat × PyFloat) :
    ∀ (l : List (Nat × PyFloat)) (n : Nat), pyInsertAt x l n = l.take n ++ x :: l.drop n := by
  intro l
  induction l with
  | nil =>
    intro n
    cases n with
    | zero => rfl
    | succ n => simp [pyInsertAt]
  | cons y ys ih =>
    intro n
    cases n with
    | zero => rfl
    | succ n =>
      show y :: pyInsertAt x ys n = y :: (ys.take n ++ x :: ys.drop n)
      rw [ih n]

theorem mem_pyInsertAt {a x : Nat × PyFloat} {l : List (Nat × PyFloat)} {n : Nat} :
    a ∈ pyInsertAt x l n ↔ a = x ∨ a ∈ l := by
  rw [pyInsertAt_eq]
  constructor
  · intro h
    rcases List.mem_append.1 h with h1 | h2
    · exact Or.inr (List.take_subset n l h1)
    · rcases List.mem_cons.1 h2 with h3 | h4
      · exact Or.inl h3
      · exact Or.inr (List.drop_subset n l h4)
  · rintro (rfl | h)
    · exact List.mem_append.2 (Or.inr (List.mem_cons_self _ _))
    · rw [← List.take_append_drop n l] at h
      rcases List.mem_append.1 h with h1 | h2
      · exact List.mem_append.2 (Or.inl h1)
      · exact List.mem_append.2 (Or.inr (List.mem_cons_of_mem _ h2))

theorem binPos_spec (pivot : PyFloat) (arr : List (Nat × PyFloat))
    (hs : ∀ i j, i < j → j < arr.length → pyLt (nthPair arr j).2 (nthPair arr i).2 = false)
    (hnn : ∀ j, j < arr.length → ¬(nthPair arr j).2 = PyFloat.nan)
    (hpiv : ¬pivot = PyFloat.nan) :
    ∀ (fuel l r : Nat), l ≤ r → r ≤ arr.length → r - l < fuel →
      (∀ j, j < l → pyLt pivot (nthPair arr j).2 = false) →
      (∀ j, r ≤ j → j < arr.length → pyLt pivot (nthPair arr j).2 = true) →
      binPos pivot arr fuel l r ≤ arr.length ∧
        (∀ j, j < binPos pivot arr fuel l r → pyLt pivot (nthPair arr j).2 = false) ∧
        (∀ j, binPos pivot arr fuel l r ≤ j → j < arr.length →
          pyLt pivot (nthPair arr j).2 = true) := by
  intro fuel
  induction fuel with
  | zero => intro l r _ _ hfuel _ _; omega
  | succ fuel ih =>
    intro l r hlr hrlen hfuel hlow hhigh
    by_cases hltr : l < r
    · have hplen : l + (r - l) / 2 < arr.length := by omega
      by_cases hc : pyLt pivot (nthPair arr (l + (r - l) / 2)).2 = true
      · have hred : binPos pivot arr (fuel + 1) l r =
            binPos pivot arr fuel l (l + (r - l) / 2) := by
          simp only [binPos, if_pos hltr, if_pos hc]
        rw [hred]
        apply ih l (l + (r - l) / 2) (by omega) (by omega) (by omega) hlow
        intro j hpj hjlen
        rcases Nat.eq_or_lt_of_le hpj with heq | hlt2
        · rw [← heq]
          exact hc
        · exact pyLt_lt_of_not_lt hc (hs _ j hlt2 hjlen) (hnn j hjlen)
      · have hcf : pyLt pivot (nthPair arr (l + (r - l) / 2)).2 = false := by
          simpa using hc
        have hred : binPos pivot arr (fuel + 1) l r =
            binPos pivot arr fuel (l + (r - l) / 2 + 1) r := by
          simp only [binPos, if_pos hltr, if_neg hc]
        rw [hred]
        refine ih (l + (r - l) / 2 + 1) r (by omega) hrlen (by omega) ?_ hhigh
        intro j hj
        by_cases hjl : j < l
        · exact hlow j hjl
        · have hjp : j ≤ l + (r - l) / 2 := by omega
          rcases Nat.eq_or_lt_of_le hjp with heq | hlt2
          · rw [heq]
            exact hcf
          · exact not_pyLt_trans hcf (hs j _ hlt2 hplen) hpiv (hnn _ hplen) (hnn j (by omega))
    · have hred : binPos pivot arr (fuel + 1) l r = l := by
        simp only [binPos, if_neg hltr]
      rw [hred]
      exact ⟨by omega, hlow, fun j hj hjlen => hhigh j (by omega) hjlen⟩

theorem insertTau_boundary :
    ∀ (acc : List (Nat × PyFloat)) (x : Nat × PyFloat),
      tauSorted acc → (∀ z ∈ acc, ¬z.2 = PyFloat.nan) → ¬x.2 = PyFloat.nan →
      ∃ i, i ≤ acc.length ∧ insertTau x acc = acc.take i ++ x :: acc.drop i ∧
        (∀ j, j < i → pyLt x.2 (nthPair acc j).2 = false) ∧
        (∀ j, i ≤ j → j < acc.length → pyLt x.2 (nthPair acc j).2 = true) := by
  intro acc
  induction acc with
  | nil =>
    intro x _ _ _
    exact ⟨0, by simp, by simp [insertTau], fun j hj => absurd hj (by omega),
      fun j _ hj => absurd hj (by simp)⟩
  | cons y ys ih =>
    intro x hsort hnn hx
    rcases List.pairwise_cons.1 hsort with ⟨hy, hys⟩
    by_cases hlt : pyLt x.2 y.2 = true
    · refine ⟨0, by simp, ?_, fun j hj => absurd hj (by omega), ?_⟩
      · simp [insertTau, hlt]
      · intro j _ hj
        cases j with
        | zero => exact hlt
        | succ k =>
          have hk : k < ys.length := by simpa using hj
          exact pyLt_lt_of_not_lt hlt (hy _ (nthPair_mem ys k hk))
            (hnn _ (List.mem_cons_of_mem y (nthPair_mem ys k hk)))
    · obtain ⟨i, hile, heq, hlow, hhigh⟩ :=
        ih x hys (fun z hz => hnn z (List.mem_cons_of_mem y hz)) hx
      refine ⟨i + 1, by simpa using hile, ?_, ?_, ?_⟩
      · show insertTau x (y :: ys) =
          (y :: ys).take (i + 1) ++ x :: (y :: ys).drop (i + 1)
        simp only [insertTau, if_neg hlt, List.take_succ_cons, List.drop_succ_cons]
        rw [heq]
        rfl
      · intro j hj
        cases j with
        | zero =>
          simpa using hlt
        | succ k => exact hlow k (by omega)
      · intro j hij hjlen
        cases j with
        | zero => exact absurd hij (by omega)
        | succ k => exact hhigh k (by omega) (by simpa using hjlen)

theorem boundary_unique {x : PyFloat} {acc : List (Nat × PyFloat)} {i i2 : Nat}
    (h1 : ∀ j, j < i → pyLt x (nthPair acc j).2 = false)
    (h2 : ∀ j, i ≤ j → j < acc.length → pyLt x (nthPair acc j).2 = true)
    (h3 : ∀ j, j < i2 → pyLt x (nthPair acc j).2 = false)
    (h4 : ∀ j, i2 ≤ j → j < acc.length → pyLt x (nthPair acc j).2 = true)
    (hi : i ≤ acc.length) (hi2 : i2 ≤ acc.length) : i = i2 := by
  by_contra hne
  rcases Nat.lt_or_ge i i2 with hlt | hge
  · have ht := h2 i (le_refl i) (by omega)
    have hf := h3 i hlt
    rw [hf] at ht
    exact Bool.noConfusion ht
  · have hlt2 : i2 < i := by omega
    have ht := h4 i2 (le_refl i2) (by omega)
    have hf := h1 i2 hlt2
    rw [hf] at ht
    exact Bool.noConfusion ht

theorem runAsc_append : ∀ (l : List (Nat × PyFloat)) (prev : Nat × PyFloat),
    (runAsc prev l).1 ++ (runAsc prev l).2 = l := by
  intro l
  induction l with
  | nil => intro prev; rfl
  | cons a rest ih =>
    intro prev
    by_cases h : pyLt a.2 prev.2 = true
    · simp [runAsc, h]
    · simp only [runAsc, if_neg h]
      show (a :: (runAsc a rest).1) ++ (runAsc a rest).2 = a :: rest
      rw [List.cons_append, ih a]

theorem runDesc_append : ∀ (l : List (Nat × PyFloat)) (prev : Nat × PyFloat),
    (runDesc prev l).1 ++ (runDesc prev l).2 = l := by
  intro l
  induction l with
  | nil => intro prev; rfl
  | cons a rest ih =>
    intro prev
    by_cases h : pyLt a.2 prev.2 = true
    · simp only [runDesc, if_pos h]
      show (a :: (runDesc a rest).1) ++ (runDesc a rest).2 = a :: rest
      rw [List.cons_append, ih a]
    · simp [runDesc, h]

theorem mem_binSortGo {z : Nat × PyFloat} :
    ∀ (rest p : List (Nat × PyFloat)), z ∈ binSortGo p rest ↔ z ∈ p ∨ z ∈ rest := by
  intro rest
  induction rest with
  | nil => intro p; simp [binSortGo]
  | cons x rest2 ih =>
    intro p
    show z ∈ binSortGo (pyInsertAt x p (binPos x.2 p (p.length + 1) 0 p.length)) rest2 ↔ _
    rw [ih, mem_pyInsertAt]
    simp only [List.mem_cons]
    tauto

theorem mem_pySorted {z : Nat × PyFloat} :
    ∀ {l : List (Nat × PyFloat)}, z ∈ pySorted l ↔ z ∈ l := by
  intro l
  match l with
  | [] => simp [pySorted]
  | [x] => simp [pySorted]
  | x :: y :: rest =>
    have hd := runDesc_append rest y
    have ha := runAsc_append rest y
    simp only [pySorted]
    split
    · rw [mem_binSortGo]
      simp only [List.mem_reverse, List.mem_cons]
      constructor
      · rintro ((h | h | h) | h)
        · exact Or.inl h
        · exact Or.inr (Or.inl h)
        · refine Or.inr (Or.inr ?_)
          rw [← hd]
          exact List.mem_append.2 (Or.inl h)
        · refine Or.inr (Or.inr ?_)
          rw [← hd]
          exact List.mem_append.2 (Or.inr h)
      · rintro (h | h | h)
        · exact Or.inl (Or.inl h)
        · exact Or.inl (Or.inr (Or.inl h))
        · rw [← hd] at h
          rcases List.mem_append.1 h with h1 | h2
          · exact Or.inl (Or.inr (Or.inr h1))
          · exact Or.inr h2
    · rw [mem_binSortGo]
      simp only [List.mem_cons]
      constructor
      · rintro ((h | h | h) | h)
        · exact Or.inl h
        · exact Or.inr (Or.inl h)
        · refine Or.inr (Or.inr ?_)
          rw [← ha]
          exact List.mem_append.2 (Or.inl h)
        · refine Or.inr (Or.inr ?_)
          rw [← ha]
          exact List.mem_append.2 (Or.inr h)
      · rintro (h | h | h)
        · exact Or.inl (Or.inl h)
        · exact Or.inl (Or.inr (Or.inl h))
        · rw [← ha] at h
          rcases List.mem_append.1 h with h1 | h2
          · exact Or.inl (Or.inr (Or.inr h1))
          · exact Or.inr h2

theorem mem_pySorted_append {x nc : Nat × PyFloat} {acc : List (Nat × PyFloat)} :
    x ∈ pySorted (acc ++ [nc]) ↔ x = nc ∨ x ∈ acc := by
  constructor
  · intro h
    rcases List.mem_append.1 (mem_pySorted.1 h) with h1 | h2
    · exact Or.inr h1
    · exact Or.inl (by simpa using h2)
  · intro h
    apply mem_pySorted.2
    rcases h with rfl | h2
    · exact List.mem_append.2 (Or.inr (List.mem_cons_self _ _))
    · exact List.mem_append.2 (Or.inl h2)

theorem runAsc_of_chain :
    ∀ (l : List (Nat × PyFloat)) (prev lastP x : Nat × PyFloat),
      List.Chain' (fun u v => pyLt v.2 u.2 = false) (prev :: l) →
      lastElem (prev :: l) = some lastP →
      runAsc prev (l ++ [x]) =
        if pyLt x.2 lastP.2 = true then (l, [x]) else (l ++ [x], []) := by
  intro l
  induction l with
  | nil =>
    intro prev lastP x _ hlast
    have hpl : prev = lastP := by simpa [lastElem] using hlast
    subst hpl
    by_cases h : pyLt x.2 prev.2 = true
    · simp [runAsc, h]
    · simp [runAsc, h]
  | cons a rest ih =>
    intro prev lastP x hchain hlast
    obtain ⟨hpa, hchain2⟩ := List.chain'_cons.1 hchain
    have hlast2 : lastElem (a :: rest) = some lastP := hlast
    have hrec := ih a lastP x hchain2 hlast2
    show runAsc prev ((a :: rest) ++ [x]) = _
    rw [List.cons_append]
    simp only [runAsc, if_neg (show ¬pyLt a.2 prev.2 = true by simp [hpa])]
    rw [hrec]
    by_cases h : pyLt x.2 lastP.2 = true
    · rw [if_pos h, if_pos h]
    · rw [if_neg h, if_neg h]

theorem pySorted_append_eq_insertTau :
    ∀ (acc : List (Nat × PyFloat)) (x : Nat × PyFloat),
      tauSorted acc → (∀ z ∈ acc, ¬z.2 = PyFloat.nan) → ¬x.2 = PyFloat.nan →
      pySorted (acc ++ [x]) = insertTau x acc := by
  intro acc x hsort hnn hx
  rcases acc with _ | ⟨a, t⟩
  · rfl
  rcases t with _ | ⟨b, rest⟩
  · by_cases h : pyLt x.2 a.2 = true
    · simp [pySorted, runDesc, binSortGo, insertTau, h]
    · simp [pySorted, runAsc, binSortGo, insertTau, h]
  · obtain ⟨ha, hsort2⟩ := List.pairwise_cons.1 hsort
    have hba : pyLt b.2 a.2 = false := ha b (List.mem_cons_self b rest)
    have hchain : List.Chain' (fun u v => pyLt v.2 u.2 = false) (b :: rest) :=
      hsort2.chain'
    obtain ⟨lastP, hlastP⟩ := lastElem_cons_some rest b
    have hrun := runAsc_of_chain rest b lastP x hchain hlastP
    show pySorted ((a :: b :: rest) ++ [x]) = insertTau x (a :: b :: rest)
    have hl : (a :: b :: rest) ++ [x] = a :: b :: (rest ++ [x]) := rfl
    rw [hl]
    simp only [pySorted, if_neg (show ¬pyLt b.2 a.2 = true by simp [hba])]
    rw [hrun]
    by_cases hxl : pyLt x.2 lastP.2 = true
    · rw [if_pos hxl]
      show pyInsertAt x (a :: b :: rest)
          (binPos x.2 (a :: b :: rest) ((a :: b :: rest).length + 1) 0
            (a :: b :: rest).length) =
        insertTau x (a :: b :: rest)
      obtain ⟨i, hile, hieq, hlow, hhigh⟩ := insertTau_boundary (a :: b :: rest) x hsort hnn hx
      have hnnidx : ∀ j, j < (a :: b :: rest).length →
          ¬(nthPair (a :: b :: rest) j).2 = PyFloat.nan :=
        fun j hj => hnn _ (nthPair_mem _ j hj)
      obtain ⟨hple, hplow, hphigh⟩ :=
        binPos_spec x.2 (a :: b :: rest) (tauSorted_nth hsort) hnnidx hx
          ((a :: b :: rest).length + 1) 0 (a :: b :: rest).length (by omega) (le_refl _)
          (by omega) (fun j hj => absurd hj (by omega))
          (fun j h1 h2 => absurd (Nat.lt_of_le_of_lt h1 h2) (Nat.lt_irrefl _))
      have hpos : binPos x.2 (a :: b :: rest) ((a :: b :: rest).length + 1) 0
          (a :: b :: rest).length = i :=
        boundary_unique hplow hphigh hlow hhigh hple hile
      rw [hpos, pyInsertAt_eq, hieq]
    · rw [if_neg hxl]
      show a :: b :: (rest ++ [x]) = insertTau x (a :: b :: rest)
      have hlast_acc : lastElem (a :: b :: rest) = some lastP := hlastP
      have hxf : pyLt x.2 lastP.2 = false := by simpa using hxl
      have hall : ∀ y ∈ a :: b :: rest, pyLt x.2 y.2 = false := by
        intro y hy
        have h1 := sorted_last_not_lt hsort hlast_acc y hy
        exact not_pyLt_trans hxf h1 hx (hnn lastP (lastElem_mem hlast_acc)) (hnn y hy)
      rw [insertTau_append hall]
      rfl

theorem buildTausGo_append (G L : PGraph) (A : List Nat) (last : Nat) :
    ∀ (l1 l2 : List Nat) (acc : List (Nat × PyFloat)),
      buildTausGo G L A last (l1 ++ l2) acc =
        buildTausGo G L A last l2 (buildTausGo G L A last l1 acc) := by
  intro l1
  induction l1 with
  | nil => intro l2 acc; rfl
  | cons nb nbs ih =>
    intro l2 acc
    by_cases hA : nb ∈ A
    · simp only [List.cons_append, buildTausGo, if_pos hA]
      exact ih l2 acc
    · cases hL : L.w last nb with
      | none =>
        simp only [List.cons_append, buildTausGo, if_neg hA, hL]
        exact ih l2 acc
      | some lw =>
        cases hG : G.w last nb with
        | none =>
          simp only [List.cons_append, buildTausGo, if_neg hA, hL, hG]
          exact ih l2 acc
        | some gw =>
          simp only [List.cons_append, buildTausGo, if_neg hA, hL, hG]
          exact ih l2 _

theorem buildTausGo_H (G L : PGraph) (A : List Nat) (last : Nat)
    (H : ∀ nb lw gw, L.w last nb = some lw → G.w last nb = some gw →
      ¬npDivide lw gw = PyFloat.nan) :
    ∀ (nbs : List Nat) (acc : List (Nat × PyFloat)),
      tauSorted acc → (∀ z ∈ acc, ¬z.2 = PyFloat.nan) →
      (tauSorted (buildTausGo G L A last nbs acc) ∧
        (∀ z ∈ buildTausGo G L A last nbs acc, ¬z.2 = PyFloat.nan)) ∧
        ∀ s, List.Sublist s acc → List.Sublist s (buildTausGo G L A last nbs acc) := by
  intro nbs
  induction nbs with
  | nil => intro acc h1 h2; exact ⟨⟨h1, h2⟩, fun s hs => hs⟩
  | cons nb nbs ih =>
    intro acc h1 h2
    by_cases hA : nb ∈ A
    · simp only [buildTausGo, if_pos hA]
      exact ih acc h1 h2
    · cases hL : L.w last nb with
      | none =>
        simp only [buildTausGo, if_neg hA, hL]
        exact ih acc h1 h2
      | some lw =>
        cases hG : G.w last nb with
        | none =>
          simp only [buildTausGo, if_neg hA, hL, hG]
          exact ih acc h1 h2
        | some gw =>
          have hnc : ¬npDivide lw gw = PyFloat.nan := H nb lw gw hL hG
          have hbr : pySorted (acc ++ [(nb, npDivide lw gw)]) =
              insertTau (nb, npDivide lw gw) acc :=
            pySorted_append_eq_insertTau acc _ h1 h2 hnc
          simp only [buildTausGo, if_neg hA, hL, hG, hbr]
          have h1b : tauSorted (insertTau (nb, npDivide lw gw) acc) :=
            insertTau_sorted _ h1
          have h2b : ∀ z ∈ insertTau (nb, npDivide lw gw) acc, ¬z.2 = PyFloat.nan := by
            intro z hz
            rcases (mem_insertTau _ z acc).1 hz with rfl | hz2
            · exact hnc
            · exact h2 z hz2
          obtain ⟨hmain, hsub⟩ := ih _ h1b h2b
          exact ⟨hmain, fun s hs => hsub s (sublist_insertTau _ hs)⟩

theorem wOf_mem {entries : List (Nat × Nat × ℚ)} {u v : Nat} {q : ℚ}
    (h : wOf entries u v = some q) :
    ∃ e ∈ entries, e.1 = u ∧ e.2.1 = v ∧ e.2.2 = q := by
  simp only [wOf] at h
  cases hf : entries.find? (fun e => e.1 = u ∧ e.2.1 = v) with
  | none =>
    rw [hf] at h
    exact Option.noConfusion h
  | some e =>
    rw [hf] at h
    have he := List.mem_of_find?_eq_some hf
    have hp := List.find?_some hf
    have hq : e.2.2 = q := by simpa using h
    simp only [decide_eq_true_eq] at hp
    exact ⟨e, he, hp.1, hp.2, hq⟩

theorem mem_buildTausGo (G L : PGraph) (A : List Nat) (last : Nat)
    (nbs : List Nat) (acc : List (Nat × PyFloat)) (x : Nat × PyFloat) :
    x ∈ buildTausGo G L A last nbs acc ↔
      x ∈ acc ∨ (x.1 ∈ nbs ∧ ¬x.1 ∈ A ∧
        ∃ lw gw, L.w last x.1 = some lw ∧ G.w last x.1 = some gw ∧ x.2 = npDivide lw gw) := by
  induction nbs generalizing acc with
  | nil => simp [buildTausGo]
  | cons nb nbs ih =>
    simp only [buildTausGo]
    by_cases hA : nb ∈ A
    · rw [if_pos hA, ih]
      constructor
      · rintro (hacc | ⟨h1, h2, h3⟩)
        · exact Or.inl hacc
        · exact Or.inr ⟨List.mem_cons_of_mem _ h1, h2, h3⟩
      · rintro (hacc | ⟨h1, h2, h3⟩)
        · exact Or.inl hacc
        · rcases List.mem_cons.1 h1 with rfl | h1b
          · exact absurd hA h2
          · exact Or.inr ⟨h1b, h2, h3⟩
    · rw [if_neg hA]
      cases hL : L.w last nb with
      | none =>
        rw [ih]
        constructor
        · rintro (hacc | ⟨h1, h2, h3⟩)
          · exact Or.inl hacc
          · exact Or.inr ⟨List.mem_cons_of_mem _ h1, h2, h3⟩
        · rintro (hacc | ⟨h1, h2, lw, gw, hlw, hgw, hnd⟩)
          · exact Or.inl hacc
          · rcases List.mem_cons.1 h1 with heq | h1b
            · rw [heq] at hlw
              rw [hL] at hlw
              exact Option.noConfusion hlw
            · exact Or.inr ⟨h1b, h2, lw, gw, hlw, hgw, hnd⟩
      | some lw0 =>
        cases hG : G.w last nb with
        | none =>
          rw [ih]
          constructor
          · rintro (hacc | ⟨h1, h2, h3⟩)
            · exact Or.inl hacc
            · exact Or.inr ⟨List.mem_cons_of_mem _ h1, h2, h3⟩
          · rintro (hacc | ⟨h1, h2, lw, gw, hlw, hgw, hnd⟩)
            · exact Or.inl hacc
            · rcases List.mem_cons.1 h1 with heq | h1b
              · rw [heq] at hgw
                rw [hG] at hgw
                exact Option.noConfusion hgw
              · exact Or.inr ⟨h1b, h2, lw, gw, hlw, hgw, hnd⟩
        | some gw0 =>
          rw [ih]
          constructor
          · rintro (hacc | ⟨h1, h2, h3⟩)
            · rcases mem_pySorted_append.1 hacc with rfl | hacc2
              · exact Or.inr ⟨List.mem_cons_self _ _, hA, lw0, gw0, hL, hG, rfl⟩
              · exact Or.inl hacc2
            · exact Or.inr ⟨List.mem_cons_of_mem _ h1, h2, h3⟩
          · rintro (hacc | ⟨h1, h2, lw, gw, hlw, hgw, hnd⟩)
            · exact Or.inl (mem_pySorted_append.2 (Or.inr hacc))
            · rcases List.mem_cons.1 h1 with heq | h1b
              · refine Or.inl (mem_pySorted_append.2 (Or.inl ?_))
                rw [heq] at hlw hgw
                rw [hL] at hlw
                rw [hG] at hgw
                have hlw2 : lw = lw0 := by injection hlw with h; exact h.symm
                have hgw2 : gw = gw0 := by injection hgw with h; exact h.symm
                subst hlw2; subst hgw2
                have : x = (x.1, x.2) := rfl
                rw [this, heq, hnd]
              · exact Or.inr ⟨h1b, h2, lw, gw, hlw, hgw, hnd⟩

theorem mem_buildTaus (G L : PGraph) (A : List Nat) (last : Nat) (x : Nat × PyFloat) :
    x ∈ buildTaus G L A last ↔
      x.1 ∈ G.adj last ∧ ¬x.1 ∈ A ∧
        ∃ lw gw, L.w last x.1 = some lw ∧ G.w last x.1 = some gw ∧ x.2 = npDivide lw gw := by
  rw [buildTaus, mem_buildTausGo]
  simp

theorem buildTaus_pos {G L : PGraph} {A : List Nat} {last : Nat} {x : Nat × PyFloat}
    (hG : posW G) (hL : posW L) (hx : x ∈ buildTaus G L A last) :
    ∃ q : ℚ, x.2 = .fin q ∧ 0 < q := by
  rcases (mem_buildTaus G L A last x).1 hx with ⟨_, _, lw, gw, hlw, hgw, hnd⟩
  have hlwpos : 0 < lw := hL last x.1 lw hlw
  have hgwpos : 0 < gw := hG last x.1 gw hgw
  refine ⟨lw / gw, ?_, div_pos hlwpos hgwpos⟩
  rw [hnd, npDivide, if_neg (ne_of_gt hgwpos)]

theorem ltmEvalLoop_mem (G L : PGraph) (thr : Nat → ℚ) (infl : Nat → Nat → ℚ) (A : List Nat)
    (l : List (Nat × PyFloat)) (targ : Nat) (ta : List Nat) (tau : PyFloat)
    (h : ltmEvalLoop G L thr infl A l = .ok (some (targ, ta, tau))) : (targ, tau) ∈ l := by
  induction l with
  | nil => simp [ltmEvalLoop] at h
  | cons c rest ih =>
    simp only [ltmEvalLoop] at h
    cases hc : ltmCand G L thr infl A c with
    | error e => rw [hc] at h; exact Except.noConfusion h
    | ok o =>
      rw [hc] at h
      cases o with
      | none => exact List.mem_cons_of_mem _ (ih h)
      | some r =>
        have hr : r = (targ, ta, tau) := by
          injection h with h2
          injection h2
        subst hr
        cases ht : taGoLTM G L c.1 c.2 (activeNbrs G A c.1) with
        | error e =>
          simp only [ltmCand, ht] at hc
          exact Except.noConfusion hc
        | ok ta0 =>
          simp only [ltmCand, ht] at hc
          by_cases hcond : thr c.1 ≤ influence_sum infl ta0 c.1
          · rw [if_pos hcond] at hc
            have h3 : (c.1, ta0, c.2) = (targ, ta, tau) := by
              injection hc with h4
              injection h4
            have h5 : c.1 = targ := congrArg Prod.fst h3
            have h6 : c.2 = tau := congrArg (fun p => p.2.2) h3
            have h7 : (targ, tau) = c := by
              rw [← h5, ← h6]
            rw [h7]
            exact List.mem_cons_self c rest
          · rw [if_neg hcond] at hc
            injection hc with h4
            exact Option.noConfusion h4

theorem ltmEvalLoop_first (G L : PGraph) (thr : Nat → ℚ) (infl : Nat → Nat → ℚ) (A : List Nat)
    (l1 : List (Nat × PyFloat)) (c : Nat × PyFloat) (l2 : List (Nat × PyFloat))
    (r : Nat × List Nat × PyFloat)
    (hfail : ∀ x ∈ l1, ltmCand G L thr infl A x = .ok none)
    (hsucc : ltmCand G L thr infl A c = .ok (some r)) :
    ltmEvalLoop G L thr infl A (l1 ++ c :: l2) = .ok (some r) := by
  induction l1 with
  | nil =>
    simp only [List.nil_append, ltmEvalLoop, hsucc]
  | cons x xs ih =>
    have hx := hfail x (List.mem_cons_self x xs)
    simp only [List.cons_append, ltmEvalLoop, hx]
    exact ih (fun y hy => hfail y (List.mem_cons_of_mem x hy))

theorem npDivide_zero_denom {lw : ℚ} (h : 0 < lw) : npDivide lw 0 = .inf := by
  simp [npDivide, h]

theorem npDivide_zero_num {gw : ℚ} (h : ¬gw = 0) : npDivide 0 gw = .fin 0 := by
  simp [npDivide, h]

theorem taGoSIR_skip (G L : PGraph) (targ : Nat) (tau : PyFloat) (a : Nat)
    (hw : L.w a targ = none ∨ G.w a targ = none) (l : List Nat) :
    ¬a ∈ taGoSIR G L targ tau l := by
  induction l with
  | nil => simp [taGoSIR]
  | cons b rest ih =>
    cases hL : L.w b targ with
    | none =>
      simp only [taGoSIR, hL]
      exact ih
    | some lw =>
      cases hG : G.w b targ with
      | none =>
        simp only [taGoSIR, hL, hG]
        exact ih
      | some gw =>
        have hab : ¬b = a := by
          intro hba
          subst hba
          rcases hw with h | h
          · rw [hL] at h; exact Option.noConfusion h
          · rw [hG] at h; exact Option.noConfusion h
        simp only [taGoSIR, hL, hG]
        cases hle : pyLe (npDivide lw gw) tau
        · rw [if_neg (by simp [hle])]
          exact ih
        · rw [if_pos rfl]
          intro hmem
          rcases List.mem_cons.1 hmem with rfl | h2
          · exact hab rfl
          · exact ih h2

/-- C1 (counterexample): in the SIR variant the round does NOT stop at the
first activating candidate.  On `Gfan`/`Lfan` with frontier `[1]`, shared
sample 1/2 and beta 9/10, candidate 2 (tau 1) activates, yet candidate 3
(tau 2) is still evaluated and also activates: the returned frontier is
`[1, 2, 2, 3]` (with a record for target 3), not `[1, 2]`. -/
theorem claim_C1_counterexample :
    sir_diffuse_one_round Gfan Lfan (fun _ => 9/10) 0 [1] [] (.fin 0) (1/2) =
      .quad [1, 2, 2, 3] [(1, 2, .fin 1), (1, 3, .fin 2)] [] (.fin 2) ∧
    ¬([1, 2, 2, 3] : List Nat) = [1, 2] := by
  constructor
  · norm_num [sir_diffuse_one_round, Gfan, Lfan, buildTaus, buildTausGo, pySorted, runAsc, runDesc, binSortGo, binPos, pyInsertAt, nthPair, insertTau, npDivide,
      pyLt, pyLe, pyAdd, activeNbrs, taGoSIR, sirCandStep, sirFoldCands, addSet, pySweep, sweepGo, wOf,
      List.find?, lastElem]
  · simp

/-- C1 (amended): only the linear-threshold round accepts the first
candidate (in `taus` order) whose test succeeds and leaves the remaining
candidates unevaluated — the result does not depend on the tail `l2`
beyond the first success.  The SIR candidate loop has no early exit: it
folds over the whole candidate list, so processing `l1 ++ l2` always
continues into `l2`. -/
theorem claim_C1_amended :
    (∀ (G L : PGraph) (thr : Nat → ℚ) (infl : Nat → Nat → ℚ) (A : List Nat)
       (l1 : List (Nat × PyFloat)) (c : Nat × PyFloat) (l2 : List (Nat × PyFloat))
       (r : Nat × List Nat × PyFloat),
       (∀ x ∈ l1, ltmCand G L thr infl A x = .ok none) →
       ltmCand G L thr infl A c = .ok (some r) →
       ltmEvalLoop G L thr infl A (l1 ++ c :: l2) = .ok (some r)) ∧
    (∀ (G L : PGraph) (beta : Nat → ℚ) (eventp : ℚ) (time : PyFloat) (st : SirSt)
       (l1 l2 : List (Nat × PyFloat)),
       List.foldl (sirCandStep G L beta eventp time) st (l1 ++ l2) =
         List.foldl (sirCandStep G L beta eventp time)
           (List.foldl (sirCandStep G L beta eventp time) st l1) l2) := by
  constructor
  · exact ltmEvalLoop_first
  · intro G L beta eventp time st l1 l2
    rw [List.foldl_append]

/-- C1 (witness): concrete instance of the LTM first-success property.
Candidate 2 fails (its threshold is 2), candidate 3 succeeds, and the junk
tail entry `(7, nan)` is never looked at. -/
theorem claim_C1_witness :
    ltmEvalLoop Gfan Gfan (fun n => if n = 2 then 2 else 1/10) (fun _ _ => 1/2) [1]
      ([(2, .fin 1)] ++ (3, .fin 1) :: [(7, .nan)]) = .ok (some (3, [1], .fin 1)) := by
  apply claim_C1_amended.1
  · intro x hx
    have hx2 : x = (2, PyFloat.fin 1) := by simpa using hx
    subst hx2
    norm_num [ltmCand, taGoLTM, activeNbrs, influence_sum, Gfan, wOf, List.find?, npDivide,
      pyLe, List.filter, Except.map]
  · norm_num [ltmCand, taGoLTM, activeNbrs, influence_sum, Gfan, wOf, List.find?, npDivide,
      pyLe, List.filter, Except.map]

/-- C2 (counterexample): equal-tau candidates are NOT ordered by ascending
identifier.  On `Gtie`/`Ltie` node 1's adjacency lists node 3 before node
2 and both get tau 2; the stable incremental sort keeps the adjacency
order `[3, 2]`, while the spec's id-ascending tie-break demands `[2, 3]`.
-/
theorem claim_C2_counterexample :
    buildTaus Gtie Ltie [1] 1 = [(3, .fin 2), (2, .fin 2)] ∧
    specCandidates Gtie Ltie [1] 1 = [(2, .fin 2), (3, .fin 2)] ∧
    ¬buildTaus Gtie Ltie [1] 1 = specCandidates Gtie Ltie [1] 1 := by
  refine ⟨?_, ?_, ?_⟩ <;>
    norm_num [buildTaus, buildTausGo, pySorted, runAsc, runDesc, binSortGo, binPos,
      pyInsertAt, nthPair, specCandidates, specCandidatesGo, specInsertTau, npDivide, pyLt,
      Gtie, Ltie, wOf, List.find?]

/-- C2 (amended): the candidate list of a round contains exactly the
pivot's adjacency-neighbours that are not in the Frontier and whose
distance and topology weights are both present (tau is the `np.divide` of
those weights).  Whenever no reachable tau is `nan` (the 0/0 case), the
list is sorted ascending by tau, and equal-tau ties keep the pivot's
adjacency insertion order — for ANY two tied candidates `nb1` before
`nb2` in the adjacency list, the pair survives in that order as a
sublist — not ascending identifier order.  (With a `nan` tau the
CPython sort leaves incomparable entries in place and guarantees no
order, see `pySorted`.) -/
theorem claim_C2_amended (G L : PGraph) (A : List Nat) (last : Nat) :
    (∀ x : Nat × PyFloat,
       x ∈ buildTaus G L A last ↔
         x.1 ∈ G.adj last ∧ ¬x.1 ∈ A ∧
           ∃ lw gw, L.w last x.1 = some lw ∧ G.w last x.1 = some gw ∧
             x.2 = npDivide lw gw) ∧
    ((∀ nb lw gw, L.w last nb = some lw → G.w last nb = some gw →
        ¬npDivide lw gw = PyFloat.nan) →
      tauSorted (buildTaus G L A last)) ∧
    ((∀ nb lw gw, L.w last nb = some lw → G.w last nb = some gw →
        ¬npDivide lw gw = PyFloat.nan) →
      ∀ (l1 : List Nat) (nb1 : Nat) (l2 : List Nat) (nb2 : Nat) (l3 : List Nat)
        (lw1 gw1 lw2 gw2 : ℚ),
        G.adj last = l1 ++ nb1 :: (l2 ++ nb2 :: l3) →
        ¬nb1 ∈ A → ¬nb2 ∈ A →
        L.w last nb1 = some lw1 → G.w last nb1 = some gw1 →
        L.w last nb2 = some lw2 → G.w last nb2 = some gw2 →
        npDivide lw1 gw1 = npDivide lw2 gw2 →
        List.Sublist [(nb1, npDivide lw1 gw1), (nb2, npDivide lw2 gw2)]
          (buildTaus G L A last)) := by
  refine ⟨fun x => mem_buildTaus G L A last x, ?_, ?_⟩
  · intro H
    rw [buildTaus]
    exact ((buildTausGo_H G L A last H (G.adj last) [] List.Pairwise.nil (by simp)).1).1
  · intro H l1 nb1 l2 nb2 l3 lw1 gw1 lw2 gw2 hadj hA1 hA2 hlw1 hgw1 hlw2 hgw2 heq
    have hnc1 : ¬npDivide lw1 gw1 = PyFloat.nan := H nb1 lw1 gw1 hlw1 hgw1
    have hnc2 : ¬npDivide lw2 gw2 = PyFloat.nan := H nb2 lw2 gw2 hlw2 hgw2
    rw [buildTaus, hadj]
    rw [buildTausGo_append G L A last l1 (nb1 :: (l2 ++ nb2 :: l3)) []]
    obtain ⟨⟨hs1, hn1⟩, _⟩ :=
      buildTausGo_H G L A last H l1 [] List.Pairwise.nil (by simp)
    have hbr1 : pySorted (buildTausGo G L A last l1 [] ++ [(nb1, npDivide lw1 gw1)]) =
        insertTau (nb1, npDivide lw1 gw1) (buildTausGo G L A last l1 []) :=
      pySorted_append_eq_insertTau _ _ hs1 hn1 hnc1
    simp only [buildTausGo, if_neg hA1, hlw1, hgw1, hbr1]
    have hs2 : tauSorted (insertTau (nb1, npDivide lw1 gw1) (buildTausGo G L A last l1 [])) :=
      insertTau_sorted _ hs1
    have hn2 : ∀ z ∈ insertTau (nb1, npDivide lw1 gw1) (buildTausGo G L A last l1 []),
        ¬z.2 = PyFloat.nan := by
      intro z hz
      rcases (mem_insertTau _ z _).1 hz with rfl | hz2
      · exact hnc1
      · exact hn1 z hz2
    rw [buildTausGo_append G L A last l2 (nb2 :: l3) _]
    obtain ⟨⟨hs3, hn3⟩, hsub3⟩ := buildTausGo_H G L A last H l2 _ hs2 hn2
    have hmem1 : (nb1, npDivide lw1 gw1) ∈ buildTausGo G L A last l2
        (insertTau (nb1, npDivide lw1 gw1) (buildTausGo G L A last l1 [])) := by
      have h0 : List.Sublist [(nb1, npDivide lw1 gw1)]
          (insertTau (nb1, npDivide lw1 gw1) (buildTausGo G L A last l1 [])) := by
        rw [List.singleton_sublist]
        exact (mem_insertTau _ _ _).2 (Or.inl rfl)
      exact List.singleton_sublist.1 (hsub3 _ h0)
    have hbr2 : pySorted (buildTausGo G L A last l2
          (insertTau (nb1, npDivide lw1 gw1) (buildTausGo G L A last l1 [])) ++
          [(nb2, npDivide lw2 gw2)]) =
        insertTau (nb2, npDivide lw2 gw2) (buildTausGo G L A last l2
          (insertTau (nb1, npDivide lw1 gw1) (buildTausGo G L A last l1 []))) :=
      pySorted_append_eq_insertTau _ _ hs3 hn3 hnc2
    simp only [buildTausGo, if_neg hA2, hlw2, hgw2, hbr2]
    have hn4 : ∀ z ∈ insertTau (nb2, npDivide lw2 gw2) (buildTausGo G L A last l2
        (insertTau (nb1, npDivide lw1 gw1) (buildTausGo G L A last l1 []))),
        ¬z.2 = PyFloat.nan := by
      intro z hz
      rcases (mem_insertTau _ z _).1 hz with rfl | hz2
      · exact hnc2
      · exact hn3 z hz2
    obtain ⟨_, hsub4⟩ :=
      buildTausGo_H G L A last H l3 _ (insertTau_sorted _ hs3) hn4
    exact hsub4 _ (insertTau_pair_after _ hmem1 hs3 heq.symm)

/-- C2 (witness): on `Gtie`/`Ltie` (all topology weights 1, so no tau can
be `nan`) the round's candidate list is sorted and the tied pair keeps
adjacency order 3-before-2 as a sublist. -/
theorem claim_C2_witness :
    tauSorted (buildTaus Gtie Ltie [1] 1) ∧
    List.Sublist [(3, PyFloat.fin 2), (2, PyFloat.fin 2)] (buildTaus Gtie Ltie [1] 1) := by
  have H : ∀ nb lw gw, Ltie.w 1 nb = some lw → Gtie.w 1 nb = some gw →
      ¬npDivide lw gw = PyFloat.nan := by
    intro nb lw gw _ hgw
    have hgw2 : wOf [(1, 3, 1), (3, 1, 1), (1, 2, 1), (2, 1, 1)] 1 nb = some gw := hgw
    obtain ⟨e, he, _, _, hq⟩ := wOf_mem hgw2
    have hgw1 : gw = 1 := by
      rw [← hq]
      fin_cases he <;> rfl
    rw [hgw1, npDivide]
    norm_num
    intro hco
    exact PyFloat.noConfusion hco
  constructor
  · exact (claim_C2_amended Gtie Ltie [1] 1).2.1 H
  · have happ := (claim_C2_amended Gtie Ltie [1] 1).2.2 H [] 3 [] 2 [] 2 1 2 1
      (by simp [Gtie]) (by simp) (by simp)
      (by norm_num [Ltie, wOf, List.find?]) (by norm_num [Gtie, wOf, List.find?])
      (by norm_num [Ltie, wOf, List.find?]) (by norm_num [Gtie, wOf, List.find?]) rfl
    have hnp : npDivide 2 1 = PyFloat.fin 2 := by norm_num [npDivide]
    rw [hnp] at happ
    exact happ

/-- C3 (code bug): two violations of the frontier/removed-set invariants,
evaluated on concrete inputs.  First, on `Gdup`/`Ldup` one SIR round
activates both candidates and the `A.extend(list(activated_set))` appends
the accumulated set twice, so node 5 ends up in the frontier twice.
Second, on `Gchain` a first round (sample 1/10 < gamma 1/4) activates 2
and then sweeps it straight into the removed list, yet the next round
(sample 1/2) selects 2 as a candidate again — it is only filtered against
`A`, never against the removed set — and 2 re-enters the frontier. -/
theorem claim_C3_bug :
    (sir_diffuse_one_round Gdup Ldup (fun _ => 3/4) 0 [4] [] (.fin 0) (1/3) =
       .quad [4, 5, 5, 6] [(4, 5, .fin 1), (4, 6, .fin 3)] [] (.fin 3) ∧
     ¬([4, 5, 5, 6] : List Nat).Nodup) ∧
    (sir_diffuse_one_round Gchain Gchain (fun _ => 9/10) (1/4) [9, 1] [] (.fin 0) (1/10) =
       .quad [1] [(1, 2, .fin 1)] [9, 2] (.fin 1) ∧
     sir_diffuse_one_round Gchain Gchain (fun _ => 9/10) (1/4) [1] [9, 2] (.fin 1) (1/2) =
       .quad [1, 2] [(1, 2, .fin 2)] [] (.fin 1)) := by
  refine ⟨⟨?_, by simp⟩, ?_, ?_⟩ <;>
    norm_num [sir_diffuse_one_round, Gdup, Ldup, Gchain, buildTaus, buildTausGo, pySorted, runAsc, runDesc, binSortGo, binPos, pyInsertAt, nthPair, insertTau,
      npDivide, pyLt, pyLe, pyAdd, activeNbrs, taGoSIR, sirCandStep, sirFoldCands, addSet, pySweep, sweepGo,
      wOf, List.find?, lastElem, nthD, pyRemove]

/-- C4 (counterexample): a ZERO weight is not skipped.  On `Gzw`/`Lzw` the
distance weight of edge (1,2) is 0 and the neighbour is kept as a
candidate with tau exactly 0 (np.divide raises nothing), contradicting
both the exclusion and the never-tau-0 parts of the claim.  And on
`Gmiss`/`Lmiss` a missing distance weight in the LTM eligibility scan
(active 5 against target 2) raises an uncaught KeyError, aborting the
round instead of skipping the pair. -/
theorem claim_C4_counterexample :
    buildTaus Gzw Lzw [1] 1 = [(2, .fin 0)] ∧
    ltm_diffuse_one_round Gmiss Lmiss (fun _ => 1/2) (fun _ _ => 1) [5, 1] (.fin 0) =
      .err .keyError := by
  constructor <;>
    norm_num [ltm_diffuse_one_round, buildTaus, buildTausGo, pySorted, runAsc, runDesc, binSortGo, binPos, pyInsertAt, nthPair, insertTau, npDivide, pyLt, pyLe,
      pyAdd, ltmEvalLoop, ltmCand, taGoLTM, activeNbrs, influence_sum, Gzw, Lzw, Gmiss, Lmiss,
      wOf, List.find?, lastElem, List.filter, Except.map]

/-- C4 (amended): only an ABSENT distance or topology weight excludes the
neighbour from candidacy (non-fatally); a zero topology weight keeps the
neighbour with tau = +inf, a zero distance weight keeps it with tau = 0,
and during the eligibility count only the SIR variant skips a pair with a
missing weight (the LTM variant raises, see the counterexample). -/
theorem claim_C4_amended :
    (∀ (G L : PGraph) (A : List Nat) (last nb : Nat) (t : PyFloat),
       (L.w last nb = none ∨ G.w last nb = none) → ¬(nb, t) ∈ buildTaus G L A last) ∧
    (∀ (G L : PGraph) (A : List Nat) (last nb : Nat) (lw : ℚ),
       nb ∈ G.adj last → ¬nb ∈ A → L.w last nb = some lw → 0 < lw →
       G.w last nb = some 0 → (nb, PyFloat.inf) ∈ buildTaus G L A last) ∧
    (∀ (G L : PGraph) (A : List Nat) (last nb : Nat) (gw : ℚ),
       nb ∈ G.adj last → ¬nb ∈ A → L.w last nb = some 0 → G.w last nb = some gw →
       ¬gw = 0 → (nb, PyFloat.fin 0) ∈ buildTaus G L A last) ∧
    (∀ (G L : PGraph) (targ : Nat) (tau : PyFloat) (a : Nat) (l : List Nat),
       (L.w a targ = none ∨ G.w a targ = none) → ¬a ∈ taGoSIR G L targ tau l) := by
  refine ⟨?_, ?_, ?_, ?_⟩
  · intro G L A last nb t hw hmem
    rcases (mem_buildTaus G L A last (nb, t)).1 hmem with ⟨_, _, lw, gw, hlw, hgw, _⟩
    rcases hw with h | h
    · rw [h] at hlw; exact Option.noConfusion hlw
    · rw [h] at hgw; exact Option.noConfusion hgw
  · intro G L A last nb lw h1 h2 hlw hpos hgw
    exact (mem_buildTaus G L A last (nb, PyFloat.inf)).2
      ⟨h1, h2, lw, 0, hlw, hgw, (npDivide_zero_denom hpos).symm⟩
  · intro G L A last nb gw h1 h2 hlw hgw hnz
    exact (mem_buildTaus G L A last (nb, PyFloat.fin 0)).2
      ⟨h1, h2, 0, gw, hlw, hgw, (npDivide_zero_num hnz).symm⟩
  · intro G L targ tau a l hw
    exact taGoSIR_skip G L targ tau a hw l

/-- C4 (witness): the four amended clauses instantiated on concrete edges:
a missing distance weight excludes node 5 from candidacy around pivot 2;
zero topology weight yields the candidate `(2, inf)` on `Gzd`/`Lzd`; zero
distance weight yields `(2, 0)` on `Gzw`/`Lzw`; and the SIR eligibility
scan skips node 5 without error. -/
theorem claim_C4_witness :
    (¬(5, PyFloat.nan) ∈ buildTaus Gmiss Lmiss [1] 2) ∧
    (2, PyFloat.inf) ∈ buildTaus Gzd Lzd [1] 1 ∧
    (2, PyFloat.fin 0) ∈ buildTaus Gzw Lzw [1] 1 ∧
    ¬5 ∈ taGoSIR Gmiss Lmiss 2 (.fin 1) [1, 5] := by
  refine ⟨?_, ?_, ?_, ?_⟩
  · exact claim_C4_amended.1 Gmiss Lmiss [1] 2 5 PyFloat.nan
      (Or.inl (by norm_num [Lmiss, wOf, List.find?]))
  · exact claim_C4_amended.2.1 Gzd Lzd [1] 1 2 3 (by norm_num [Gzd]) (by norm_num)
      (by norm_num [Lzd, wOf, List.find?]) (by norm_num)
      (by norm_num [Gzd, wOf, List.find?])
  · exact claim_C4_amended.2.2.1 Gzw Lzw [1] 1 2 5 (by norm_num [Gzw]) (by norm_num)
      (by norm_num [Lzw, wOf, List.find?]) (by norm_num [Gzw, wOf, List.find?])
      (by norm_num)
  · exact claim_C4_amended.2.2.2 Gmiss Lmiss 2 (.fin 1) 5 [1, 5]
      (Or.inl (by norm_num [Lmiss, wOf, List.find?]))

theorem posW_wOf {entries : List (Nat × Nat × ℚ)} (h : ∀ e ∈ entries, 0 < e.2.2)
    (u v : Nat) (q : ℚ) (hq : wOf entries u v = some q) : 0 < q := by
  unfold wOf at hq
  cases hf : entries.find? (fun e => e.1 = u ∧ e.2.1 = v) with
  | none => rw [hf] at hq; simp at hq
  | some e =>
    rw [hf] at hq
    simp only [Option.map_some'] at hq
    have he := h e (List.mem_of_find?_eq_some hf)
    have hq2 : e.2.2 = q := by injection hq
    rw [← hq2]
    exact he

theorem sir_prologue_steps (G L : PGraph) (s : List Nat) (b g : ℚ)
    (h1 : G.isMulti = false) (h2 : G.nodes.length = L.nodes.length)
    (h3 : seedsOK G s = true) : SIR_model G L s b g = .error .nameErrorSteps := by
  simp [SIR_model, h1, h2, h3]

theorem ltm_prologue_steps (G L : PGraph) (s : List Nat) (t : ℚ)
    (h1 : G.isMulti = false) (h2 : G.nodes.length = L.nodes.length)
    (h3 : G.isDirected = false) (h4 : L.isDirected = false) (h5 : seedsOK G s = true)
    (h6 : initThresholds G t = .ok ()) (h7 : initInfluences G = .ok ()) :
    linear_threshold G L s t = .error .nameErrorSteps := by
  simp [linear_threshold, h1, h2, h3, h4, h5, h6, h7]

/-- C5 (counterexample): the SIR round's clock advance is not the winning
candidate's tau.  On `Gfar`/`Lfar` with per-node beta, candidate 2 (tau 1)
is the only activation — its record carries time 1 — but the returned tau,
which `_diffuse_all` adds to the clock, is the tau 5 of the last evaluated
candidate 3, which did NOT activate. -/
theorem claim_C5_counterexample :
    sir_diffuse_one_round Gfar Lfar (fun n => if n = 3 then 1/10 else 9/10) 0 [1] []
      (.fin 0) (2/5) = .quad [1, 2] [(1, 2, .fin 1)] [] (.fin 5) ∧
    ¬(PyFloat.fin 5) = .fin 1 := by
  refine ⟨?_, by simp⟩
  norm_num [sir_diffuse_one_round, Gfar, Lfar, buildTaus, buildTausGo, pySorted, runAsc, runDesc, binSortGo, binPos, pyInsertAt, nthPair, insertTau, npDivide,
    pyLt, pyLe, pyAdd, activeNbrs, taGoSIR, sirCandStep, sirFoldCands, addSet, pySweep, sweepGo, wOf,
    List.find?, lastElem, nthD, pyRemove]

/-- C5 (amended): in the linear-threshold variant an activating round
returns the tau of the single winning candidate — a finite positive value
under the positive-weight data contract — so the clock update
`time + tau` never decreases the clock.  In the SIR variant the returned
tau that `_diffuse_all` adds to the clock is the tau of the LAST candidate
of the round, whether or not it is the one that activated. -/
theorem claim_C5_amended :
    (∀ (G L : PGraph) (thr : Nat → ℚ) (infl : Nat → Nat → ℚ) (A : List Nat) (t : ℚ)
       (A2 : List Nat) (recs : List ActivationRec) (tau : PyFloat),
       posW G → posW L →
       ltm_diffuse_one_round G L thr infl A (.fin t) = .tri A2 recs tau →
       ∃ q targ last, tau = .fin q ∧ 0 < q ∧ A2 = A ++ [targ] ∧
         lastElem A = some last ∧ (targ, tau) ∈ buildTaus G L A last ∧
         pyLe (.fin t) (pyAdd (.fin t) tau) = true) ∧
    (∀ (G L : PGraph) (beta : Nat → ℚ) (g : ℚ) (A r : List Nat) (time : PyFloat)
       (eventp : ℚ) (A2 : List Nat) (ie : List ActivationRec) (r2 : List Nat)
       (tau : PyFloat) (last : Nat),
       lastElem A = some last →
       sir_diffuse_one_round G L beta g A r time eventp = .quad A2 ie r2 tau →
       ∃ c, lastElem (buildTaus G L A last) = some c ∧ tau = c.2) := by
  constructor
  · intro G L thr infl A t A2 recs tau hG hL hrun
    cases hlast : lastElem A with
    | none =>
      rw [ltm_diffuse_one_round, hlast] at hrun
      exact LtmRet.noConfusion hrun
    | some last =>
      cases hloop : ltmEvalLoop G L thr infl A (buildTaus G L A last) with
      | error e =>
        rw [ltm_diffuse_one_round, hlast] at hrun
        simp only [hloop] at hrun
        exact LtmRet.noConfusion hrun
      | ok o =>
        cases o with
        | none =>
          rw [ltm_diffuse_one_round, hlast] at hrun
          simp only [hloop] at hrun
          exact LtmRet.noConfusion hrun
        | some rr =>
          obtain ⟨targ, ta, tau0⟩ := rr
          rw [ltm_diffuse_one_round, hlast] at hrun
          simp only [hloop] at hrun
          cases hrun
          have hmem : (targ, tau) ∈ buildTaus G L A last :=
            ltmEvalLoop_mem G L thr infl A _ targ ta tau hloop
          obtain ⟨q, hq, hqpos⟩ := buildTaus_pos hG hL hmem
          have hq2 : tau = PyFloat.fin q := hq
          refine ⟨q, targ, last, hq2, hqpos, rfl, rfl, hmem, ?_⟩
          rw [hq2]
          simp only [pyAdd, pyLe, decide_eq_true_eq]
          linarith
  · intro G L beta g A r time eventp A2 ie r2 tau last hlast hrun
    simp only [sir_diffuse_one_round, hlast] at hrun
    split at hrun
    · exact SirRet.noConfusion hrun
    · cases hlt : lastElem (buildTaus G L A last) with
      | none =>
        simp only [hlt] at hrun
        exact SirRet.noConfusion hrun
      | some c =>
        simp only [hlt] at hrun
        cases hrun
        exact ⟨c, rfl, rfl⟩

/-- C5 (witness): a concrete activating LTM round on the two-node chain —
the winner is 2 with tau 1 and the clock moves from 0 to 1 — together
with the SIR conjunct instantiated on the `Gfar` round. -/
theorem claim_C5_witness :
    (∃ q targ last, (PyFloat.fin 1) = PyFloat.fin q ∧ 0 < q ∧
       ([1, 2] : List Nat) = [1] ++ [targ] ∧ lastElem [1] = some last ∧
       (targ, PyFloat.fin 1) ∈ buildTaus Gchain Gchain [1] last ∧
       pyLe (.fin 0) (pyAdd (.fin 0) (.fin 1)) = true) ∧
    (∃ c, lastElem (buildTaus Gfar Lfar [1] 1) = some c ∧ PyFloat.fin 5 = c.2) := by
  constructor
  · apply claim_C5_amended.1 Gchain Gchain (fun _ => 1/2) (fun _ _ => 1) [1] 0 [1, 2]
      [(1, 2, .fin 1)] (.fin 1)
    · intro u v q hq
      refine posW_wOf ?_ u v q hq
      intro e he
      fin_cases he <;> norm_num
    · intro u v q hq
      refine posW_wOf ?_ u v q hq
      intro e he
      fin_cases he <;> norm_num
    · norm_num [ltm_diffuse_one_round, buildTaus, buildTausGo, pySorted, runAsc, runDesc, binSortGo, binPos, pyInsertAt, nthPair, insertTau, npDivide, pyLt,
        pyLe, pyAdd, ltmEvalLoop, ltmCand, taGoLTM, activeNbrs, influence_sum, Gchain, wOf,
        List.find?, lastElem, List.filter, Except.map]
  · apply claim_C5_amended.2 Gfar Lfar (fun n => if n = 3 then 1/10 else 9/10) 0 [1] []
      (.fin 0) (2/5) [1, 2] [(1, 2, .fin 1)] [] (.fin 5) 1
    · norm_num [lastElem]
    · norm_num [sir_diffuse_one_round, Gfar, Lfar, buildTaus, buildTausGo, pySorted, runAsc, runDesc, binSortGo, binPos, pyInsertAt, nthPair, insertTau,
        npDivide, pyLt, pyLe, pyAdd, activeNbrs, taGoSIR, sirCandStep, sirFoldCands, addSet, pySweep,
        sweepGo, wOf, List.find?, lastElem, nthD, pyRemove]

/-- C6: one shared uniform sample per round.  The round function draws a
single `eventp` (drawn once at `run_sir.py` line 98) that is threaded both
to every `sirCandStep` of the candidate fold and to the recovery sweep,
and a candidate enters the frontier at its evaluation step if and only if
it was already there or the shared sample is below
`beta(target) * |eligible active neighbours|`; the round's activation set
is extended exactly under that condition. -/
theorem claim_C6 (G L : PGraph) (beta : Nat → ℚ) (eventp : ℚ) (time : PyFloat)
    (st : SirSt) (targ : Nat) (tau : PyFloat) :
    (targ ∈ (sirCandStep G L beta eventp time st (targ, tau)).A ↔
      targ ∈ st.A ∨
        eventp < beta targ * ((taGoSIR G L targ tau (activeNbrs G st.A targ)).length : ℚ)) ∧
    (sirCandStep G L beta eventp time st (targ, tau)).acts =
      (if eventp < beta targ * ((taGoSIR G L targ tau (activeNbrs G st.A targ)).length : ℚ)
       then addSet targ st.acts else st.acts) := by
  by_cases hc :
      eventp < beta targ * ((taGoSIR G L targ tau (activeNbrs G st.A targ)).length : ℚ)
  · constructor
    · constructor
      · intro _
        exact Or.inr hc
      · intro _
        simp only [sirCandStep]
        rw [if_pos hc]
        apply List.mem_append.2
        right
        by_cases ha : targ ∈ st.acts
        · simp [addSet, ha]
        · simp [addSet, ha]
    · simp only [sirCandStep]
      rw [if_pos hc, if_pos hc]
  · constructor
    · simp only [sirCandStep]
      rw [if_neg hc]
      simp [hc]
    · simp only [sirCandStep]
      rw [if_neg hc, if_neg hc]

/-- C7 (counterexample): a DIRECTED graph is not rejected by the SIR entry
point.  `Gdir` is directed, yet `SIR_model` runs its three checks (none of
which looks at directedness) and proceeds to the `steps` NameError — not
to an invalid-graph rejection. -/
theorem claim_C7_counterexample :
    SIR_model Gdir Lfan [1] (1/20) (1/200) = .error .nameErrorSteps ∧
    ¬Err.nameErrorSteps = Err.directedGraph ∧
    ¬Err.nameErrorSteps = Err.invalidGraphType := by
  refine ⟨?_, by simp, by simp⟩
  norm_num [SIR_model, Gdir, Gfan, Lfan, seedsOK]

/-- C7 (amended): both entry points reject (before any diffusion) a
multigraph, a node-count mismatch, and a missing seed, in that order; the
directed-graph rejection exists only in the linear-threshold entry point —
`SIR_model` never checks directedness and reaches the `steps` NameError
whenever its three checks pass, directed input or not. -/
theorem claim_C7_amended :
    (∀ (G L : PGraph) (s : List Nat) (t : ℚ), G.isMulti = true →
       linear_threshold G L s t = .error .invalidGraphType) ∧
    (∀ (G L : PGraph) (s : List Nat) (b g : ℚ), G.isMulti = true →
       SIR_model G L s b g = .error .invalidGraphType) ∧
    (∀ (G L : PGraph) (s : List Nat) (t : ℚ), G.isMulti = false →
       ¬G.nodes.length = L.nodes.length →
       linear_threshold G L s t = .error .dimensionMismatch) ∧
    (∀ (G L : PGraph) (s : List Nat) (b g : ℚ), G.isMulti = false →
       ¬G.nodes.length = L.nodes.length →
       SIR_model G L s b g = .error .dimensionMismatch) ∧
    (∀ (G L : PGraph) (s : List Nat) (t : ℚ), G.isMulti = false →
       G.nodes.length = L.nodes.length → (G.isDirected = true ∨ L.isDirected = true) →
       linear_threshold G L s t = .error .directedGraph) ∧
    (∀ (G L : PGraph) (s : List Nat) (t : ℚ), G.isMulti = false →
       G.nodes.length = L.nodes.length → G.isDirected = false → L.isDirected = false →
       seedsOK G s = false → linear_threshold G L s t = .error .seedNotFound) ∧
    (∀ (G L : PGraph) (s : List Nat) (b g : ℚ), G.isMulti = false →
       G.nodes.length = L.nodes.length → seedsOK G s = false →
       SIR_model G L s b g = .error .seedNotFound) ∧
    (∀ (G L : PGraph) (s : List Nat) (b g : ℚ), G.isMulti = false →
       G.nodes.length = L.nodes.length → seedsOK G s = true →
       SIR_model G L s b g = .error .nameErrorSteps) := by
  refine ⟨?_, ?_, ?_, ?_, ?_, ?_, ?_, ?_⟩
  · intro G L s t h1
    simp [linear_threshold, h1]
  · intro G L s b g h1
    simp [SIR_model, h1]
  · intro G L s t h1 h2
    simp [linear_threshold, h1, h2]
  · intro G L s b g h1 h2
    simp [SIR_model, h1, h2]
  · intro G L s t h1 h2 hd
    rcases hd with hd | hd <;> simp [linear_threshold, h1, h2, hd]
  · intro G L s t h1 h2 h3 h4 h5
    simp [linear_threshold, h1, h2, h3, h4, h5]
  · intro G L s b g h1 h2 h3
    simp [SIR_model, h1, h2, h3]
  · intro G L s b g h1 h2 h3
    exact sir_prologue_steps G L s b g h1 h2 h3

/-- C7 (witness): the eight amended clauses at concrete inputs — the
rejections of multigraphs, mismatched sizes, a directed topology graph
(LTM only), missing seeds, and the directed-but-unrejected SIR call. -/
theorem claim_C7_witness :
    linear_threshold { Gfan with isMulti := true } Lfan [1] (1/2) =
      .error .invalidGraphType ∧
    SIR_model { Gfan with isMulti := true } Lfan [1] (1/20) (1/200) =
      .error .invalidGraphType ∧
    linear_threshold Gzw Lfan [1] (1/2) = .error .dimensionMismatch ∧
    SIR_model Gzw Lfan [1] (1/20) (1/200) = .error .dimensionMismatch ∧
    linear_threshold Gdir Lfan [1] (1/2) = .error .directedGraph ∧
    linear_threshold Gfan Lfan [99] (1/2) = .error .seedNotFound ∧
    SIR_model Gfan Lfan [99] (1/20) (1/200) = .error .seedNotFound ∧
    SIR_model Gdir Lfan [2] (1/20) (1/200) = .error .nameErrorSteps := by
  refine ⟨?_, ?_, ?_, ?_, ?_, ?_, ?_, ?_⟩
  · exact claim_C7_amended.1 _ Lfan [1] (1/2) rfl
  · exact claim_C7_amended.2.1 _ Lfan [1] (1/20) (1/200) rfl
  · exact claim_C7_amended.2.2.1 Gzw Lfan [1] (1/2) rfl (by norm_num [Gzw, Lfan])
  · exact claim_C7_amended.2.2.2.1 Gzw Lfan [1] (1/20) (1/200) rfl (by norm_num [Gzw, Lfan])
  · exact claim_C7_amended.2.2.2.2.1 Gdir Lfan [1] (1/2) rfl (by norm_num [Gdir, Gfan, Lfan])
      (Or.inl rfl)
  · exact claim_C7_amended.2.2.2.2.2.1 Gfan Lfan [99] (1/2) rfl rfl rfl rfl
      (by norm_num [seedsOK, Gfan])
  · exact claim_C7_amended.2.2.2.2.2.2.1 Gfan Lfan [99] (1/20) (1/200) rfl rfl
      (by norm_num [seedsOK, Gfan])
  · exact claim_C7_amended.2.2.2.2.2.2.2 Gdir Lfan [2] (1/20) (1/200) rfl
      (by norm_num [Gdir, Gfan, Lfan]) (by norm_num [seedsOK, Gdir, Gfan])

/-- C8 (counterexample): in the SIR variant a beta of 2 (> 1) is NOT
rejected with a parameter-range error: the beta check of `run_sir.py`
lines 69-73 sits after the function's only return, so the call fails with
the `steps` NameError instead. -/
theorem claim_C8_counterexample :
    SIR_model Gfan Lfan [1] 2 (1/200) = .error .nameErrorSteps ∧
    ¬Err.nameErrorSteps = Err.betaOutOfRange ∧
    ¬Err.nameErrorSteps = Err.thresholdOutOfRange := by
  refine ⟨?_, by simp, by simp⟩
  norm_num [SIR_model, Gfan, Lfan, seedsOK]

/-- C8 (amended): the deterministic entry point does reject a configured
threshold above 1 before any diffusion (on a nonempty node set); its
influence guard exists but can never fire, because `1/degree(target)` is
at most 1 whenever the degree is nonzero (a zero degree would raise a
division error first); and the SIR entry point rejects no beta at all —
for any beta the call ends in the `steps` NameError once its three checks
pass. -/
theorem claim_C8_amended :
    (∀ (G L : PGraph) (s : List Nat) (t : ℚ), G.isMulti = false →
       G.nodes.length = L.nodes.length → G.isDirected = false → L.isDirected = false →
       seedsOK G s = true → ¬G.nodes = [] → 1 < t →
       linear_threshold G L s t = .error .thresholdOutOfRange) ∧
    (∀ G : PGraph, (∀ e ∈ G.edgeList, ¬(G.adj e.2).length = 0) →
       initInfluences G = .ok ()) ∧
    (∀ (G L : PGraph) (s : List Nat) (b g : ℚ), G.isMulti = false →
       G.nodes.length = L.nodes.length → seedsOK G s = true →
       SIR_model G L s b g = .error .nameErrorSteps) := by
  refine ⟨?_, ?_, ?_⟩
  · intro G L s t h1 h2 h3 h4 h5 hne ht
    have hth : initThresholds G t = .error .thresholdOutOfRange := by
      cases hn : G.nodes with
      | nil => exact absurd hn hne
      | cons a l => simp [initThresholds, hn, ht]
    simp [linear_threshold, h1, h2, h3, h4, h5, hth]
  · intro G h
    rw [initInfluences]
    have hgo : ∀ es : List (Nat × Nat), (∀ e ∈ es, ¬(G.adj e.2).length = 0) →
        initInfluencesGo G es = .ok () := by
      intro es
      induction es with
      | nil => intro _; rfl
      | cons e es ih =>
        intro hes
        have hd := hes e (List.mem_cons_self e es)
        have hd1 : 1 ≤ ((G.adj e.2).length : ℚ) := by
          have : 1 ≤ (G.adj e.2).length := Nat.one_le_iff_ne_zero.2 hd
          exact_mod_cast this
        rw [initInfluencesGo, if_neg hd]
        rw [if_neg (not_lt.2 (by
          rw [div_le_one (by linarith)]
          exact hd1))]
        exact ih (fun x hx => hes x (List.mem_cons_of_mem e hx))
    exact hgo G.edgeList h
  · intro G L s b g h1 h2 h3
    exact sir_prologue_steps G L s b g h1 h2 h3

/-- C8 (witness): threshold 2 is rejected on `Gfan`; the influence init
succeeds on `Gfan` (guard never fires); and `SIR_model` with beta 2 runs
into the `steps` NameError rather than a parameter rejection. -/
theorem claim_C8_witness :
    linear_threshold Gfan Lfan [1] 2 = .error .thresholdOutOfRange ∧
    initInfluences Gfan = .ok () ∧
    SIR_model Gfan Lfan [1] 2 (1/200) = .error .nameErrorSteps := by
  refine ⟨?_, ?_, ?_⟩
  · exact claim_C8_amended.1 Gfan Lfan [1] 2 rfl rfl rfl rfl
      (by norm_num [seedsOK, Gfan]) (by simp [Gfan]) (by norm_num)
  · exact claim_C8_amended.2.1 Gfan (by
      intro e he
      fin_cases he <;> norm_num [Gfan])
  · exact claim_C8_amended.2.2 Gfan Lfan [1] 2 (1/200) rfl rfl
      (by norm_num [seedsOK, Gfan])

/-- C9: neither module ever defines or assigns `steps`, so once the
construction prologue passes (all four LTM checks plus the threshold and
influence loops; the three SIR checks) the `if steps <= 0` test evaluates
an unbound name and every such call ends in a NameError — an `error`
result, never a `CascadeResult`. -/
theorem claim_C9 :
    (∀ (G L : PGraph) (seeds : List Nat) (t : ℚ),
       G.isMulti = false → G.nodes.length = L.nodes.length → G.isDirected = false →
       L.isDirected = false → seedsOK G seeds = true → initThresholds G t = .ok () →
       initInfluences G = .ok () →
       linear_threshold G L seeds t = .error .nameErrorSteps) ∧
    (∀ (G L : PGraph) (seeds : List Nat) (b g : ℚ),
       G.isMulti = false → G.nodes.length = L.nodes.length → seedsOK G seeds = true →
       SIR_model G L seeds b g = .error .nameErrorSteps) :=
  ⟨fun G L seeds t h1 h2 h3 h4 h5 h6 h7 =>
     ltm_prologue_steps G L seeds t h1 h2 h3 h4 h5 h6 h7,
   fun G L seeds b g h1 h2 h3 => sir_prologue_steps G L seeds b g h1 h2 h3⟩

/-- C9 (witness): both entry points on the valid fan input end in the
`steps` NameError. -/
theorem claim_C9_witness :
    linear_threshold Gfan Lfan [1] (1/2) = .error .nameErrorSteps ∧
    SIR_model Gfan Lfan [1] (1/20) (1/200) = .error .nameErrorSteps := by
  constructor
  · exact claim_C9.1 Gfan Lfan [1] (1/2) rfl rfl rfl rfl (by norm_num [seedsOK, Gfan])
      (by norm_num [initThresholds, Gfan])
      (by norm_num [initInfluences, initInfluencesGo, Gfan])
  · exact claim_C9.2 Gfan Lfan [1] (1/20) (1/200) rfl rfl (by norm_num [seedsOK, Gfan])

/-- C10: when a SIR round stalls (`len(A) == len_old` after the sweep),
`_diffuse_one_round` returns the 3-tuple of line 131, and the caller's
four-variable unpacking on line 80 fails: with the `gamma` global bound,
the loop ends in the unpack ValueError instead of returning the records
and removed set; as shipped (`gamma` unbound) it raises a NameError even
before the first round — on no path does a stalled loop return them. -/
theorem claim_C10 :
    (∀ (G L : PGraph) (beta : Nat → ℚ) (g : ℚ) (rand : Nat → ℚ) (k fuel : Nat)
       (A r : List Nat) (i_nodes : List ActivationRec) (time : PyFloat),
       sir_diffuse_one_round G L beta g A r time (rand k) = .triNone →
       sir_diffuse_all (some g) G L beta rand k (fuel + 1) A r i_nodes time =
         .error .valueErrorUnpack) ∧
    (∀ (G L : PGraph) (beta : Nat → ℚ) (rand : Nat → ℚ) (k fuel : Nat)
       (A r : List Nat) (i_nodes : List ActivationRec) (time : PyFloat),
       sir_diffuse_all none G L beta rand k (fuel + 1) A r i_nodes time =
         .error .nameErrorGamma) := by
  constructor
  · intro G L beta g rand k fuel A r i_nodes time hround
    rw [sir_diffuse_all]
    simp only [hround]
  · intro G L beta rand k fuel A r i_nodes time
    rw [sir_diffuse_all]

/-- C10 (witness): on the isolated node the first round stalls and the
diffusion loop raises the unpack error. -/
theorem claim_C10_witness :
    sir_diffuse_all (some 0) Gisol Gisol (fun _ => 1/20) (fun _ => 1/2) 0 3 [1] [] []
      (.fin 0) = .error .valueErrorUnpack := by
  apply claim_C10.1 Gisol Gisol (fun _ => 1/20) 0 (fun _ => 1/2) 0 2 [1] [] [] (.fin 0)
  norm_num [sir_diffuse_one_round, Gisol, buildTaus, buildTausGo, pySorted, lastElem,
    pySweep, sweepGo, sirFoldCands]
